import Mathlib

/-!
Verification of the `petsapp` relative-date shorthand library
(`src/petsapp/index.ts`).

The library manipulates JavaScript `Date` values, which are integer counts of
milliseconds since the Unix epoch interpreted through the proleptic Gregorian
calendar in UTC (ECMA-262 `MakeDay`/`MakeTime`).  We model an instant as an
`Int` of epoch milliseconds and give computable definitions of the calendar
field accessors and setters the source uses, then translate `parse` and
`stringify` directly.
-/

namespace Petsapp

/-! ### Proleptic Gregorian calendar arithmetic

`daysFromCivil`/`civilFromDays` convert between a civil UTC date and its day
number (days since 1970-01-01), matching ECMA-262 `MakeDay` and the
`YearFromTime`/`MonthFromTime`/`DateFromTime` accessors.  The algorithm is the
standard era-based one (Hinnant); all divisions are floor divisions (`/` and
`%` on `Int` are Euclidean here, which agrees with floor for positive
divisors). -/

/-- Day number (days since 1970-01-01 UTC) of civil date `(y, m, d)`, month
`m` 1-based; `d` may lie outside the month and carries over, exactly as in
ECMA-262 `MakeDay`. -/
def daysFromCivil (y m d : Int) : Int :=
  let ys := if m ≤ 2 then y - 1 else y
  let ms := if m ≤ 2 then m + 9 else m - 3
  365 * ys + ys / 4 - ys / 100 + ys / 400 + (153 * ms + 2) / 5 + d - 1 - 719468

/-- Era (400-year block) of a day number. -/
def cfdEra (z : Int) : Int := (z + 719468) / 146097

/-- Day-of-era of a day number, in `[0, 146096]`. -/
def cfdDoe (z : Int) : Int := z + 719468 - cfdEra z * 146097

/-- (March-based) year-of-era of a day number, in `[0, 399]`. -/
def cfdYoe (z : Int) : Int :=
  (cfdDoe z - cfdDoe z / 1460 + cfdDoe z / 36524 - cfdDoe z / 146096) / 365

/-- (March-based) day-of-year of a day number, in `[0, 365]`. -/
def cfdDoy (z : Int) : Int :=
  cfdDoe z - (365 * cfdYoe z + cfdYoe z / 4 - cfdYoe z / 100)

/-- March-based month index (March = 0) of a day number, in `[0, 11]`. -/
def cfdMp (z : Int) : Int := (5 * cfdDoy z + 2) / 153

/-- Civil day-of-month of a day number. -/
def cfdDay (z : Int) : Int := cfdDoy z - (153 * cfdMp z + 2) / 5 + 1

/-- Civil month (1..12) of a day number. -/
def cfdMonth (z : Int) : Int := if cfdMp z < 10 then cfdMp z + 3 else cfdMp z - 9

/-- Civil year of a day number. -/
def cfdYear (z : Int) : Int :=
  if cfdMonth z ≤ 2 then cfdYoe z + cfdEra z * 400 + 1 else cfdYoe z + cfdEra z * 400

/-- Civil date `(year, month 1..12, day 1..31)` of a day number. -/
def civilFromDays (z : Int) : Int × Int × Int := (cfdYear z, cfdMonth z, cfdDay z)

/-! #### The year-of-era invariant

Correctness of `civilFromDays` rests on one combinatorial fact about the
146097-day era: the expression `(doe - doe/1460 + doe/36524 - doe/146096)/365`
is the (March-based) year-of-era containing day-of-era `doe`.  We prove it by
checking the 400 year boundaries by computation and interpolating by
monotonicity. -/

/-- Day-of-era on which (March-based) year-of-era `y` starts, `y ≤ 399`. -/
def startN (y : Nat) : Nat := 365 * y + y / 4 - y / 100

/-- The Hinnant year-extraction numerator. -/
def sN (d : Nat) : Nat := d - d / 1460 + d / 36524 - d / 146096

/-- Last day-of-era belonging to year-of-era `y` (year 399 additionally owns
the era's final leap day `146096`). -/
def endN (y : Nat) : Nat := if y = 399 then 146096 else startN (y + 1) - 1

/-- Bounded `∀` checker with logarithmic recursion depth, so that it kernel-
reduces without deep recursion. -/
def ballCheck (f : Nat → Bool) : Nat → Nat → Nat → Bool
  | 0, lo, hi => decide (hi ≤ lo)
  | fuel + 1, lo, hi =>
    if hi ≤ lo then true
    else if hi = lo + 1 then f lo
    else ballCheck f fuel lo ((lo + hi) / 2) && ballCheck f fuel ((lo + hi) / 2) hi

theorem ballCheck_sound (f : Nat → Bool) :
    ∀ fuel lo hi, ballCheck f fuel lo hi = true →
      ∀ x, lo ≤ x → x < hi → f x = true := by
  intro fuel
  induction fuel with
  | zero =>
    intro lo hi h x hx1 hx2
    simp only [ballCheck, decide_eq_true_eq] at h
    omega
  | succ n ih =>
    intro lo hi h x hx1 hx2
    simp only [ballCheck] at h
    split at h
    · omega
    · split at h
      · next he1 =>
        have hxlo : x = lo := by omega
        subst hxlo; exact h
      · rw [Bool.and_eq_true] at h
        rcases Nat.lt_or_ge x ((lo + hi) / 2) with hc | hc
        · exact ih lo ((lo + hi) / 2) h.1 x hx1 hc
        · exact ih ((lo + hi) / 2) hi h.2 x hc hx2

/-- Per-year endpoint check: `sN` stays within `[365*y, 365*y + 364]` on the
two ends of year-of-era `y`. -/
def yearEndsOk (y : Nat) : Bool :=
  decide (365 * y ≤ sN (startN y)) && decide (sN (endN y) ≤ 365 * y + 364)

theorem yearEndsOk_all : ∀ y, y < 400 → yearEndsOk y = true := by
  intro y hy
  exact ballCheck_sound yearEndsOk 12 0 400 (by decide) y (Nat.zero_le _) hy

theorem sN_step (d : Nat) : sN d ≤ sN (d + 1) := by
  unfold sN; omega

theorem sN_mono : Monotone sN := monotone_nat_of_le_succ sN_step

theorem startN_le_succ (y : Nat) : startN y ≤ startN (y + 1) := by
  unfold startN; omega

theorem startN_mono : Monotone startN := monotone_nat_of_le_succ startN_le_succ

theorem startN_gap (y : Nat) : startN y + 365 ≤ startN (y + 1) := by
  unfold startN; omega

theorem startN_gap_le (y : Nat) : startN (y + 1) ≤ startN y + 366 := by
  unfold startN; omega

/-- Every day-of-era lies in some year-of-era's range. -/
theorem coverage : ∀ d, d ≤ 146096 →
    ∃ y, y ≤ 399 ∧ startN y ≤ d ∧ (d < startN (y + 1) ∨ y = 399) := by
  intro d
  induction d with
  | zero =>
    intro _
    exact ⟨0, by decide, by decide, Or.inl (by decide)⟩
  | succ n ih =>
    intro hn
    obtain ⟨y, hy, h1, h2⟩ := ih (by omega)
    rcases h2 with h2 | h2
    · rcases Nat.lt_or_ge (n + 1) (startN (y + 1)) with hc | hc
      · exact ⟨y, hy, by omega, Or.inl hc⟩
      · have hstart : n + 1 = startN (y + 1) := by omega
        rcases Nat.lt_or_ge (y + 1) 399 with hy' | hy'
        · refine ⟨y + 1, by omega, by omega, Or.inl ?_⟩
          have := startN_gap (y + 1)
          omega
        · refine ⟨399, le_refl _, ?_, Or.inr rfl⟩
          have := startN_mono (show 399 ≤ y + 1 by omega)
          omega
    · -- y = 399: the next day (if still in range) also belongs to year 399
      subst h2
      exact ⟨399, le_refl _, by omega, Or.inr rfl⟩

/-- The year-of-era invariant: `sN d / 365` is the year-of-era containing `d`. -/
theorem hinnantNat : ∀ d, d ≤ 146096 →
    sN d / 365 ≤ 399 ∧ startN (sN d / 365) ≤ d ∧ d ≤ startN (sN d / 365) + 365 ∧
      (d < startN (sN d / 365 + 1) ∨ sN d / 365 = 399) := by
  intro d hd
  obtain ⟨y, hy, h1, h2⟩ := coverage d hd
  have hlow : 365 * y ≤ sN (startN y) := by
    have := yearEndsOk_all y (by omega)
    simp only [yearEndsOk, Bool.and_eq_true, decide_eq_true_eq] at this
    exact this.1
  have hhigh : sN (endN y) ≤ 365 * y + 364 := by
    have := yearEndsOk_all y (by omega)
    simp only [yearEndsOk, Bool.and_eq_true, decide_eq_true_eq] at this
    exact this.2
  have hdle : d ≤ endN y := by
    unfold endN
    split
    · omega
    · rcases h2 with h2 | h2
      · omega
      · omega
  have hs1 : sN (startN y) ≤ sN d := sN_mono h1
  have hs2 : sN d ≤ sN (endN y) := sN_mono hdle
  have hq : sN d / 365 = y := by omega
  rw [hq]
  have hub : d ≤ startN y + 365 := by
    unfold endN at hdle
    split at hdle
    · next hy399 =>
      subst hy399
      have : startN 399 = 145731 := by decide
      omega
    · have := startN_gap_le y
      omega
  exact ⟨hy, h1, hub, by
    rcases h2 with h2 | h2
    · exact Or.inl h2
    · exact Or.inr h2⟩

/-- A day-of-era determines its year-of-era uniquely, given the interval
facts. -/
theorem yoeNat_unique (d y1 y2 : Nat) (hy1 : y1 ≤ 399) (hy2 : y2 ≤ 399)
    (h1a : startN y1 ≤ d) (h1b : d < startN (y1 + 1) ∨ y1 = 399)
    (h2a : startN y2 ≤ d) (h2b : d < startN (y2 + 1) ∨ y2 = 399) : y1 = y2 := by
  rcases Nat.lt_trichotomy y1 y2 with h | h | h
  · exfalso
    have hm : startN (y1 + 1) ≤ startN y2 := startN_mono h
    rcases h1b with h1b | h1b
    · omega
    · omega
  · exact h
  · exfalso
    have hm : startN (y2 + 1) ≤ startN y1 := startN_mono h
    rcases h2b with h2b | h2b
    · omega
    · omega

/-! ### The invariant, transported to the `Int`-valued pieces -/

theorem doe_bounds (z : Int) : 0 ≤ cfdDoe z ∧ cfdDoe z ≤ 146096 := by
  unfold cfdDoe cfdEra
  omega

theorem cast_sN (n : Nat) :
    ((sN n : Nat) : Int) = (n : Int) - (n : Int) / 1460 + (n : Int) / 36524
      - (n : Int) / 146096 := by
  unfold sN; omega

theorem cast_startN (y : Nat) :
    ((startN y : Nat) : Int) = 365 * (y : Int) + (y : Int) / 4 - (y : Int) / 100 := by
  unfold startN; omega

theorem cast_startN_succ (y : Nat) :
    ((startN (y + 1) : Nat) : Int) = 365 * ((y : Int) + 1) + ((y : Int) + 1) / 4
      - ((y : Int) + 1) / 100 := by
  have h := cast_startN (y + 1)
  push_cast at h
  exact h

theorem hinnantInt (z : Int) :
    0 ≤ cfdYoe z ∧ cfdYoe z ≤ 399 ∧
    365 * cfdYoe z + cfdYoe z / 4 - cfdYoe z / 100 ≤ cfdDoe z ∧
    cfdDoe z ≤ 365 * cfdYoe z + cfdYoe z / 4 - cfdYoe z / 100 + 365 ∧
    (cfdDoe z < 365 * (cfdYoe z + 1) + (cfdYoe z + 1) / 4 - (cfdYoe z + 1) / 100 ∨
      cfdYoe z = 399) := by
  obtain ⟨hd0, hd1⟩ := doe_bounds z
  have hn : ((cfdDoe z).toNat : Int) = cfdDoe z := Int.toNat_of_nonneg hd0
  obtain ⟨ha, hb, hc, hd⟩ := hinnantNat (cfdDoe z).toNat (by omega)
  have hs := cast_sN (cfdDoe z).toNat
  have hy1 := cast_startN (sN (cfdDoe z).toNat / 365)
  have hy2 := cast_startN_succ (sN (cfdDoe z).toNat / 365)
  have hyoe : cfdYoe z = ((sN (cfdDoe z).toNat / 365 : Nat) : Int) := by
    unfold cfdYoe
    omega
  rw [hyoe]
  omega

theorem doy_bounds (z : Int) : 0 ≤ cfdDoy z ∧ cfdDoy z ≤ 365 := by
  have h := hinnantInt z
  unfold cfdDoy
  omega

theorem mp_bounds (z : Int) :
    0 ≤ cfdMp z ∧ cfdMp z ≤ 11 ∧
    (153 * cfdMp z + 2) / 5 ≤ cfdDoy z ∧
    cfdDoy z < (153 * (cfdMp z + 1) + 2) / 5 ∧
    1 ≤ cfdDay z ∧ cfdDay z ≤ 31 := by
  have h := doy_bounds z
  unfold cfdDay cfdMp
  omega

theorem month_bounds (z : Int) : 1 ≤ cfdMonth z ∧ cfdMonth z ≤ 12 := by
  have h := mp_bounds z
  unfold cfdMonth
  split <;> omega

theorem yoe_shift_div4 (z : Int) :
    (cfdYoe z + cfdEra z * 400) / 4 = cfdYoe z / 4 + 100 * cfdEra z := by
  have h := hinnantInt z
  omega

theorem yoe_shift_div100 (z : Int) :
    (cfdYoe z + cfdEra z * 400) / 100 = cfdYoe z / 100 + 4 * cfdEra z := by
  have h := hinnantInt z
  omega

theorem yoe_shift_div400 (z : Int) :
    (cfdYoe z + cfdEra z * 400) / 400 = cfdEra z := by
  have h := hinnantInt z
  omega

/-- `daysFromCivil` inverts `civilFromDays`: the reconstruction law. -/
theorem daysFromCivil_cfd (z : Int) :
    daysFromCivil (cfdYear z) (cfdMonth z) (cfdDay z) = z := by
  have hdoe := doe_bounds z
  have hyoe := hinnantInt z
  have hdoy := doy_bounds z
  have hmp := mp_bounds z
  have hdoedef : cfdDoe z = z + 719468 - cfdEra z * 146097 := rfl
  have heradef : cfdEra z = (z + 719468) / 146097 := rfl
  have hdoydef : cfdDoy z = cfdDoe z - (365 * cfdYoe z + cfdYoe z / 4 - cfdYoe z / 100) :=
    rfl
  have hdaydef : cfdDay z = cfdDoy z - (153 * cfdMp z + 2) / 5 + 1 := rfl
  simp only [daysFromCivil]
  by_cases h10 : cfdMp z < 10
  · have hmeq : cfdMonth z = cfdMp z + 3 := by unfold cfdMonth; rw [if_pos h10]
    have hm3 : ¬ (cfdMonth z ≤ 2) := by omega
    have hyeq : cfdYear z = cfdYoe z + cfdEra z * 400 := by unfold cfdYear; rw [if_neg hm3]
    rw [if_neg hm3, if_neg hm3]
    have hms : cfdMonth z - 3 = cfdMp z := by omega
    rw [hms, hyeq, yoe_shift_div4, yoe_shift_div100, yoe_shift_div400]
    omega
  · have hmeq : cfdMonth z = cfdMp z - 9 := by unfold cfdMonth; rw [if_neg h10]
    have hm3 : cfdMonth z ≤ 2 := by omega
    have hyeq : cfdYear z = cfdYoe z + cfdEra z * 400 + 1 := by unfold cfdYear; rw [if_pos hm3]
    rw [if_pos hm3, if_pos hm3]
    have hms : cfdMonth z + 9 = cfdMp z := by omega
    rw [hms, hyeq]
    have hys : cfdYoe z + cfdEra z * 400 + 1 - 1 = cfdYoe z + cfdEra z * 400 := by ring
    rw [hys, yoe_shift_div4, yoe_shift_div100, yoe_shift_div400]
    omega

/-! ### Locating a day number inside its civil year and month -/

/-- Day number of January 1 of civil year `y`. -/
def janFirst (y : Int) : Int := daysFromCivil y 1 1

theorem janFirst_unfold (y : Int) :
    janFirst y = 365 * (y - 1) + (y - 1) / 4 - (y - 1) / 100 + (y - 1) / 400
      + 306 - 719468 := by
  simp only [janFirst, daysFromCivil]
  norm_num

theorem janFirst_unfold_succ (y : Int) :
    janFirst (y + 1) = 365 * y + y / 4 - y / 100 + y / 400 + 306 - 719468 := by
  have h := janFirst_unfold (y + 1)
  have h2 : y + 1 - 1 = y := by ring
  rw [h2] at h
  exact h

theorem janFirst_gap (y : Int) : janFirst y + 365 ≤ janFirst (y + 1) := by
  rw [janFirst_unfold, janFirst_unfold_succ]
  omega

theorem janFirst_gap_le (y : Int) : janFirst (y + 1) ≤ janFirst y + 366 := by
  rw [janFirst_unfold_succ, janFirst_unfold]
  omega

theorem janFirst_mono {y1 y2 : Int} (h : y1 ≤ y2) : janFirst y1 ≤ janFirst y2 := by
  obtain ⟨k, hk⟩ := Int.le.dest h
  subst hk
  induction k with
  | zero => simp
  | succ n ih =>
    have h1 := janFirst_gap (y1 + n)
    have h2 : y1 + ((n : Nat) + 1 : Nat) = y1 + (n : Nat) + 1 := by push_cast; ring
    rw [h2]
    have := ih (by omega)
    omega

theorem janFirst_strict {y1 y2 : Int} (h : y1 < y2) :
    janFirst y1 + 365 ≤ janFirst y2 := by
  have h1 := janFirst_gap y1
  have h2 := janFirst_mono (show y1 + 1 ≤ y2 by omega)
  omega

/-- Any civil date with month in `1..12` and day in `1..31` has a day number
inside its civil year's range. -/
theorem dfc_in_year (y m d : Int) (h1 : 1 ≤ m) (h2 : m ≤ 12) (h3 : 1 ≤ d)
    (h4 : d ≤ 31) :
    janFirst y ≤ daysFromCivil y m d ∧ daysFromCivil y m d < janFirst (y + 1) := by
  rw [janFirst_unfold, janFirst_unfold_succ]
  simp only [daysFromCivil]
  by_cases hm : m ≤ 2
  · rw [if_pos hm, if_pos hm]
    omega
  · rw [if_neg hm, if_neg hm]
    omega

theorem year_range (z : Int) :
    janFirst (cfdYear z) ≤ z ∧ z < janFirst (cfdYear z + 1) := by
  have h1 := month_bounds z
  have h2 := mp_bounds z
  have h := dfc_in_year (cfdYear z) (cfdMonth z) (cfdDay z) h1.1 h1.2
    h2.2.2.2.2.1 h2.2.2.2.2.2
  rw [daysFromCivil_cfd] at h
  exact h

/-- A day number lying in civil year `y`'s range has civil year `y`. -/
theorem year_loc (z y : Int) (h1 : janFirst y ≤ z) (h2 : z < janFirst (y + 1)) :
    cfdYear z = y := by
  have hr := year_range z
  rcases Int.lt_trichotomy (cfdYear z) y with h | h | h
  · exfalso
    have := janFirst_mono (show cfdYear z + 1 ≤ y by omega)
    omega
  · exact h
  · exfalso
    have := janFirst_mono (show y + 1 ≤ cfdYear z by omega)
    omega

/-- The civil year of any valid-ish date built with `daysFromCivil`. -/
theorem cfdYear_dfc (y m d : Int) (h1 : 1 ≤ m) (h2 : m ≤ 12) (h3 : 1 ≤ d)
    (h4 : d ≤ 31) : cfdYear (daysFromCivil y m d) = y := by
  have h := dfc_in_year y m d h1 h2 h3 h4
  exact year_loc _ y h.1 h.2

theorem startI_gap (y : Int) (h : 0 ≤ y) :
    365 * y + y / 4 - y / 100 + 365 ≤ 365 * (y + 1) + (y + 1) / 4 - (y + 1) / 100 := by
  omega

/-- A day-of-era value pins down its year-of-era. -/
theorem yoeInt_unique (d y1 y2 : Int)
    (hy1 : 0 ≤ y1 ∧ y1 ≤ 399) (hy2 : 0 ≤ y2 ∧ y2 ≤ 399)
    (h1a : 365 * y1 + y1 / 4 - y1 / 100 ≤ d)
    (h1b : d < 365 * (y1 + 1) + (y1 + 1) / 4 - (y1 + 1) / 100 ∨ y1 = 399)
    (h2a : 365 * y2 + y2 / 4 - y2 / 100 ≤ d)
    (h2b : d < 365 * (y2 + 1) + (y2 + 1) / 4 - (y2 + 1) / 100 ∨ y2 = 399) :
    y1 = y2 := by
  have hd0 : 0 ≤ d := by omega
  have c1 := cast_startN y1.toNat
  have c2 := cast_startN y2.toNat
  have c1s := cast_startN_succ y1.toNat
  have c2s := cast_startN_succ y2.toNat
  have key := yoeNat_unique d.toNat y1.toNat y2.toNat (by omega) (by omega)
    (by omega)
    (by rcases h1b with h | h
        · exact Or.inl (by omega)
        · exact Or.inr (by omega))
    (by omega)
    (by rcases h2b with h | h
        · exact Or.inl (by omega)
        · exact Or.inr (by omega))
  omega

theorem shift400_div4 (a e : Int) (h0 : 0 ≤ a) (h1 : a ≤ 399) :
    (a + e * 400) / 4 = a / 4 + 100 * e := by omega

theorem shift400_div100 (a e : Int) (h0 : 0 ≤ a) (h1 : a ≤ 399) :
    (a + e * 400) / 100 = a / 100 + 4 * e := by omega

theorem shift400_div400 (a e : Int) (h0 : 0 ≤ a) (h1 : a ≤ 399) :
    (a + e * 400) / 400 = e := by omega

theorem msp_roundtrip (ms : Int) (h0 : 0 ≤ ms) (h1 : ms ≤ 11) :
    (5 * ((153 * ms + 2) / 5) + 2) / 153 = ms := by omega

/-- Auxiliary form of the month-start inversion: the `civilFromDays` pieces of
`daysFromCivil y m 1`, for a March-based month code `ms` and shifted year
`ys`. -/
theorem cfd_pieces_of_monthstart (z ys ms : Int) (hms0 : 0 ≤ ms) (hms1 : ms ≤ 11)
    (hz : z + 719468 =
      365 * ys + ys / 4 - ys / 100 + ys / 400 + (153 * ms + 2) / 5) :
    cfdYoe z = ys % 400 ∧ cfdEra z = ys / 400 ∧
      cfdDoy z = (153 * ms + 2) / 5 ∧ cfdMp z = ms ∧ cfdDay z = 1 := by
  have hY0 : 0 ≤ ys % 400 := Int.emod_nonneg ys (by norm_num)
  have hY1 : ys % 400 ≤ 399 := by omega
  have hsplit : ys = ys % 400 + (ys / 400) * 400 := by omega
  have h4 := shift400_div4 (ys % 400) (ys / 400) hY0 hY1
  have h100 := shift400_div100 (ys % 400) (ys / 400) hY0 hY1
  have h400 := shift400_div400 (ys % 400) (ys / 400) hY0 hY1
  rw [hsplit, h4, h100, h400] at hz
  -- bounds on the month-start offset
  have hmsb : 0 ≤ (153 * ms + 2) / 5 ∧ (153 * ms + 2) / 5 ≤ 337 := by omega
  -- the era and day-of-era of z
  have hera : cfdEra z = ys / 400 := by
    unfold cfdEra
    omega
  have hdoe : cfdDoe z =
      365 * (ys % 400) + (ys % 400) / 4 - (ys % 400) / 100 + (153 * ms + 2) / 5 := by
    unfold cfdDoe
    rw [hera]
    omega
  -- the year-of-era of z
  have hinv := hinnantInt z
  have hyoe : cfdYoe z = ys % 400 := by
    refine yoeInt_unique (cfdDoe z) (cfdYoe z) (ys % 400)
      ⟨hinv.1, hinv.2.1⟩ ⟨hY0, hY1⟩ hinv.2.2.1 hinv.2.2.2.2 (by omega) ?_
    have hg := startI_gap (ys % 400) hY0
    exact Or.inl (by omega)
  have hdoy : cfdDoy z = (153 * ms + 2) / 5 := by
    unfold cfdDoy
    rw [hyoe]
    omega
  have hmp : cfdMp z = ms := by
    unfold cfdMp
    rw [hdoy]
    exact msp_roundtrip ms hms0 hms1
  have hday : cfdDay z = 1 := by
    unfold cfdDay
    rw [hdoy, hmp]
    ring
  exact ⟨hyoe, hera, hdoy, hmp, hday⟩

/-- Month-start inversion: `civilFromDays` recovers `(y, m, 1)` from
`daysFromCivil y m 1` for any month `1 ≤ m ≤ 12`. -/
theorem civilFromDays_dfc1 (y m : Int) (h1 : 1 ≤ m) (h2 : m ≤ 12) :
    civilFromDays (daysFromCivil y m 1) = (y, m, 1) := by
  by_cases hm : m ≤ 2
  · have hz : daysFromCivil y m 1 + 719468 =
        365 * (y - 1) + (y - 1) / 4 - (y - 1) / 100 + (y - 1) / 400
          + (153 * (m + 9) + 2) / 5 := by
      simp only [daysFromCivil, if_pos hm]
      ring
    obtain ⟨hyoe, hera, hdoy, hmp, hday⟩ :=
      cfd_pieces_of_monthstart (daysFromCivil y m 1) (y - 1) (m + 9)
        (by omega) (by omega) hz
    have hmonth : cfdMonth (daysFromCivil y m 1) = m := by
      unfold cfdMonth
      rw [hmp, if_neg (by omega)]
      ring
    have hyear : cfdYear (daysFromCivil y m 1) = y := by
      unfold cfdYear
      rw [hmonth, if_pos hm, hyoe, hera]
      omega
    simp only [civilFromDays, hyear, hmonth, hday]
  · have hz : daysFromCivil y m 1 + 719468 =
        365 * y + y / 4 - y / 100 + y / 400 + (153 * (m - 3) + 2) / 5 := by
      simp only [daysFromCivil, if_neg hm]
      ring
    obtain ⟨hyoe, hera, hdoy, hmp, hday⟩ :=
      cfd_pieces_of_monthstart (daysFromCivil y m 1) y (m - 3)
        (by omega) (by omega) hz
    have hmonth : cfdMonth (daysFromCivil y m 1) = m := by
      unfold cfdMonth
      rw [hmp, if_pos (by omega)]
      ring
    have hyear : cfdYear (daysFromCivil y m 1) = y := by
      unfold cfdYear
      rw [hmonth, if_neg hm, hyoe, hera]
      omega
    simp only [civilFromDays, hyear, hmonth, hday]

/-! ### The JavaScript `Date` model

An instant is an `Int` of milliseconds since the Unix epoch.  The accessors
and setters below follow ECMA-262's `Day`, `TimeWithinDay`, `YearFromTime`,
`MonthFromTime` (0-based), `DateFromTime`, `WeekDay`, `HourFromTime`,
`MinFromTime`, `SecFromTime`, `msFromTime`, `MakeDay`, `MakeTime` and
`MakeDate`, all in UTC. -/

def msInSecond : Int := 1000
def msInMinute : Int := 60000
def msInHour : Int := 3600000
def msInDay : Int := 86400000
def msInWeek : Int := 604800000
def msInMonth : Int := 2592000000
def msInYear : Int := 31536000000

/-- ECMA `Day(t)`. -/
def dayNumber (t : Int) : Int := t / msInDay

/-- ECMA `TimeWithinDay(t)`. -/
def timeWithinDay (t : Int) : Int := t % msInDay

def getUTCFullYear (t : Int) : Int := cfdYear (dayNumber t)

/-- 0-based month, as in JavaScript. -/
def getUTCMonth (t : Int) : Int := cfdMonth (dayNumber t) - 1

def getUTCDate (t : Int) : Int := cfdDay (dayNumber t)

/-- ECMA `WeekDay(t)`: 0 = Sunday (1970-01-01 was a Thursday, day 4). -/
def getUTCDay (t : Int) : Int := (dayNumber t + 4) % 7

def getUTCHours (t : Int) : Int := t / msInHour % 24

def getUTCMinutes (t : Int) : Int := t / msInMinute % 60

def getUTCSeconds (t : Int) : Int := t / msInSecond % 60

def getUTCMilliseconds (t : Int) : Int := t % msInSecond

/-- ECMA `MakeDay(year, month, date)` with a 0-based month that may lie
outside `[0, 11]` and a day that may lie outside the month. -/
def makeDay (y m d : Int) : Int := daysFromCivil (y + m / 12) (m % 12 + 1) d

/-- `MakeDate(Day(t), MakeTime(h, mi, s, ms))`: replace the time fields. -/
def setTimeFields (t h mi s ms : Int) : Int :=
  dayNumber t * msInDay + h * msInHour + mi * msInMinute + s * msInSecond + ms

def setUTCDate (t d : Int) : Int :=
  makeDay (getUTCFullYear t) (getUTCMonth t) d * msInDay + timeWithinDay t

def setUTCMonth (t m : Int) : Int :=
  makeDay (getUTCFullYear t) m (getUTCDate t) * msInDay + timeWithinDay t

/-- `setUTCMonth(m, d)` with an explicit date argument. -/
def setUTCMonth2 (t m d : Int) : Int :=
  makeDay (getUTCFullYear t) m d * msInDay + timeWithinDay t

def setUTCFullYear (t y : Int) : Int :=
  makeDay y (getUTCMonth t) (getUTCDate t) * msInDay + timeWithinDay t

def setUTCHours1 (t h : Int) : Int :=
  setTimeFields t h (getUTCMinutes t) (getUTCSeconds t) (getUTCMilliseconds t)

def setUTCMinutes1 (t mi : Int) : Int :=
  setTimeFields t (getUTCHours t) mi (getUTCSeconds t) (getUTCMilliseconds t)

def setUTCSeconds1 (t s : Int) : Int :=
  setTimeFields t (getUTCHours t) (getUTCMinutes t) s (getUTCMilliseconds t)

/-- `applyAdjustment(date, sign, value, unit)` from the source: add
`value * (sign == '+' ? 1 : -1)` units, via the corresponding UTC setter. -/
def applyAdjustment (t : Int) (sign : Char) (value : Int) (unit : Char) : Int :=
  let multiplier : Int := if sign = '+' then 1 else -1
  if unit = 'd' then setUTCDate t (getUTCDate t + value * multiplier)
  else if unit = 'M' then setUTCMonth t (getUTCMonth t + value * multiplier)
  else if unit = 'y' then setUTCFullYear t (getUTCFullYear t + value * multiplier)
  else if unit = 'h' then setUTCHours1 t (getUTCHours t + value * multiplier)
  else if unit = 'm' then setUTCMinutes1 t (getUTCMinutes t + value * multiplier)
  else if unit = 's' then setUTCSeconds1 t (getUTCSeconds t + value * multiplier)
  else if unit = 'w' then setUTCDate t (getUTCDate t + value * 7 * multiplier)
  else t

/-- `applyRounding(date, unit)` from the source: snap down to the start of the
current unit period.  The `default` case of the source's `switch` throws
(`Invalid rounding unit`); we model it as `none`. -/
def applyRounding (t : Int) (unit : Char) : Option Int :=
  if unit = 'd' then some (setTimeFields t 0 0 0 0)
  else if unit = 'M' then some (setTimeFields (setUTCDate t 1) 0 0 0 0)
  else if unit = 'y' then some (setTimeFields (setUTCMonth2 t 0 1) 0 0 0 0)
  else if unit = 'h' then some (setTimeFields t (getUTCHours t) 0 0 0)
  else if unit = 'm' then some (setTimeFields t (getUTCHours t) (getUTCMinutes t) 0 0)
  else if unit = 's' then
    some (setTimeFields t (getUTCHours t) (getUTCMinutes t) (getUTCSeconds t) 0)
  else if unit = 'w' then
    some (setTimeFields (setUTCDate t (getUTCDate t - getUTCDay t)) 0 0 0 0)
  else none

/-- `convertToDateOnly`: the UTC midnight of the instant's calendar date
(obtained in the source by reparsing the date part of the ISO string). -/
def convertToDateOnly (t : Int) : Int :=
  daysFromCivil (getUTCFullYear t) (getUTCMonth t + 1) (getUTCDate t) * msInDay

/-! #### Timeline characterizations of the setters -/

theorem dayNumber_decomp (t : Int) :
    t = dayNumber t * msInDay + timeWithinDay t ∧ 0 ≤ timeWithinDay t ∧
      timeWithinDay t < msInDay := by
  unfold dayNumber timeWithinDay msInDay
  omega

/-- `daysFromCivil` is linear in the day argument. -/
theorem dfc_linear (y m d : Int) :
    daysFromCivil y m d = daysFromCivil y m 1 + (d - 1) := by
  simp only [daysFromCivil]
  by_cases hm : m ≤ 2
  · rw [if_pos hm, if_pos hm]
    ring
  · rw [if_neg hm, if_neg hm]
    ring

/-- The civil fields of an instant rebuild its day number. -/
theorem makeDay_reconstruct (t : Int) :
    makeDay (getUTCFullYear t) (getUTCMonth t) (getUTCDate t) = dayNumber t := by
  have hmb := month_bounds (dayNumber t)
  unfold makeDay getUTCFullYear getUTCMonth getUTCDate
  have h12 : (cfdMonth (dayNumber t) - 1) / 12 = 0 := by omega
  have h12' : (cfdMonth (dayNumber t) - 1) % 12 = cfdMonth (dayNumber t) - 1 := by omega
  rw [h12, h12']
  have harg : cfdMonth (dayNumber t) - 1 + 1 = cfdMonth (dayNumber t) := by ring
  rw [harg, add_zero]
  exact daysFromCivil_cfd (dayNumber t)

/-- `setUTCDate(getUTCDate() + k)` adds exactly `k` days. -/
theorem setUTCDate_add (t k : Int) :
    setUTCDate t (getUTCDate t + k) = t + k * msInDay := by
  have hrec := makeDay_reconstruct t
  have hdec := dayNumber_decomp t
  unfold setUTCDate
  unfold makeDay at hrec ⊢
  rw [dfc_linear _ _ (getUTCDate t + k), dfc_linear _ _ (getUTCDate t)] at *
  simp only [msInDay] at *
  omega

theorem setUTCHours1_add (t k : Int) :
    setUTCHours1 t (getUTCHours t + k) = t + k * msInHour := by
  unfold setUTCHours1 setTimeFields getUTCHours getUTCMinutes getUTCSeconds
    getUTCMilliseconds dayNumber msInDay msInHour msInMinute msInSecond
  omega

theorem setUTCMinutes1_add (t k : Int) :
    setUTCMinutes1 t (getUTCMinutes t + k) = t + k * msInMinute := by
  unfold setUTCMinutes1 setTimeFields getUTCHours getUTCMinutes getUTCSeconds
    getUTCMilliseconds dayNumber msInDay msInHour msInMinute msInSecond
  omega

theorem setUTCSeconds1_add (t k : Int) :
    setUTCSeconds1 t (getUTCSeconds t + k) = t + k * msInSecond := by
  unfold setUTCSeconds1 setTimeFields getUTCHours getUTCMinutes getUTCSeconds
    getUTCMilliseconds dayNumber msInDay msInHour msInMinute msInSecond
  omega

theorem convertToDateOnly_eq (t : Int) :
    convertToDateOnly t = dayNumber t * msInDay := by
  have hrec := makeDay_reconstruct t
  have hmb := month_bounds (dayNumber t)
  unfold convertToDateOnly
  unfold makeDay at hrec
  have h12 : (getUTCMonth t) / 12 = 0 := by unfold getUTCMonth; omega
  have h12' : (getUTCMonth t) % 12 = getUTCMonth t := by unfold getUTCMonth; omega
  rw [h12, h12', add_zero] at hrec
  unfold getUTCMonth at hrec ⊢
  have harg : cfdMonth (dayNumber t) - 1 + 1 = cfdMonth (dayNumber t) := by ring
  rw [harg] at hrec ⊢
  rw [hrec]

/-! #### Closed forms for the seven rounding cases -/

theorem roundD (t : Int) : applyRounding t 'd' = some (t / msInDay * msInDay) := by
  unfold applyRounding
  rw [if_pos rfl]
  refine congrArg some ?_
  unfold setTimeFields dayNumber msInDay msInHour msInMinute msInSecond
  omega

theorem roundH (t : Int) : applyRounding t 'h' = some (t / msInHour * msInHour) := by
  unfold applyRounding
  rw [if_neg (by decide), if_neg (by decide), if_neg (by decide), if_pos rfl]
  refine congrArg some ?_
  unfold setTimeFields dayNumber getUTCHours msInDay msInHour msInMinute msInSecond
  omega

theorem roundMin (t : Int) :
    applyRounding t 'm' = some (t / msInMinute * msInMinute) := by
  unfold applyRounding
  rw [if_neg (by decide), if_neg (by decide), if_neg (by decide), if_neg (by decide),
    if_pos rfl]
  refine congrArg some ?_
  unfold setTimeFields dayNumber getUTCHours getUTCMinutes msInDay msInHour
    msInMinute msInSecond
  omega

theorem roundS (t : Int) :
    applyRounding t 's' = some (t / msInSecond * msInSecond) := by
  unfold applyRounding
  rw [if_neg (by decide), if_neg (by decide), if_neg (by decide), if_neg (by decide),
    if_neg (by decide), if_pos rfl]
  refine congrArg some ?_
  unfold setTimeFields dayNumber getUTCHours getUTCMinutes getUTCSeconds msInDay
    msInHour msInMinute msInSecond
  omega

theorem roundW (t : Int) :
    applyRounding t 'w' = some ((dayNumber t - getUTCDay t) * msInDay) := by
  unfold applyRounding
  rw [if_neg (by decide), if_neg (by decide), if_neg (by decide), if_neg (by decide),
    if_neg (by decide), if_neg (by decide), if_pos rfl]
  refine congrArg some ?_
  have h1 : getUTCDate t - getUTCDay t = getUTCDate t + (-(getUTCDay t)) := by ring
  rw [h1, setUTCDate_add]
  have hday : 0 ≤ getUTCDay t ∧ getUTCDay t < 7 := by
    unfold getUTCDay
    omega
  unfold setTimeFields dayNumber msInDay at *
  omega

theorem roundM (t : Int) :
    applyRounding t 'M' =
      some (daysFromCivil (getUTCFullYear t) (getUTCMonth t + 1) 1 * msInDay) := by
  unfold applyRounding
  rw [if_neg (by decide), if_pos rfl]
  refine congrArg some ?_
  have hmb := month_bounds (dayNumber t)
  have hsd : setUTCDate t 1 =
      daysFromCivil (getUTCFullYear t) (getUTCMonth t + 1) 1 * msInDay
        + timeWithinDay t := by
    unfold setUTCDate makeDay
    have h12 : (getUTCMonth t) / 12 = 0 := by unfold getUTCMonth; omega
    have h12' : (getUTCMonth t) % 12 = getUTCMonth t := by unfold getUTCMonth; omega
    rw [h12, h12', add_zero]
  rw [hsd]
  have hdec := dayNumber_decomp t
  unfold setTimeFields dayNumber msInDay at *
  omega

theorem roundY (t : Int) :
    applyRounding t 'y' =
      some (daysFromCivil (getUTCFullYear t) 1 1 * msInDay) := by
  unfold applyRounding
  rw [if_neg (by decide), if_neg (by decide), if_pos rfl]
  refine congrArg some ?_
  have hsm : setUTCMonth2 t 0 1 =
      daysFromCivil (getUTCFullYear t) 1 1 * msInDay + timeWithinDay t := by
    unfold setUTCMonth2 makeDay
    norm_num
  rw [hsm]
  have hdec := dayNumber_decomp t
  unfold setTimeFields dayNumber msInDay at *
  omega

/-! ### The operation extractor (tokenizer)

The source matches the remainder of the expression against the global regex
`([+-]?\d+[dMyhmsw]|\/[dMyhmsw])`, collecting non-overlapping leftmost
matches and skipping characters that match nothing.  `matchToken` decides
whether a token match starts at the present position (returning the token and
the rest), and `tokenize` scans left to right. -/

def isUnitChar (c : Char) : Bool :=
  c = 'd' || c = 'M' || c = 'y' || c = 'h' || c = 'm' || c = 's' || c = 'w'

def isSignChar (c : Char) : Bool := c = '+' || c = '-'

/-- Split off the leading run of decimal digits. -/
def takeDigits : List Char → List Char × List Char
  | [] => ([], [])
  | c :: cs =>
    if c.isDigit then (c :: (takeDigits cs).1, (takeDigits cs).2)
    else ([], c :: cs)

/-- Match the token regex at the start of the list: an optional sign, one or
more digits and a unit letter; or `/` and a unit letter. -/
def matchToken : List Char → Option (List Char × List Char)
  | [] => none
  | c :: cs =>
    if isSignChar c then
      if (takeDigits cs).1 = [] then none
      else
        match (takeDigits cs).2 with
        | [] => none
        | u :: rest =>
          if isUnitChar u then some (c :: ((takeDigits cs).1 ++ [u]), rest) else none
    else if c.isDigit then
      match (takeDigits (c :: cs)).2 with
      | [] => none
      | u :: rest =>
        if isUnitChar u then some ((takeDigits (c :: cs)).1 ++ [u], rest) else none
    else if c = '/' then
      match cs with
      | [] => none
      | u :: rest => if isUnitChar u then some ([c, u], rest) else none
    else none

theorem takeDigits_append : ∀ cs, (takeDigits cs).1 ++ (takeDigits cs).2 = cs := by
  intro cs
  induction cs with
  | nil => rfl
  | cons c cs ih =>
    simp only [takeDigits]
    split
    · simpa using ih
    · simp

theorem matchToken_rest_length (cs tok rest : List Char)
    (h : matchToken cs = some (tok, rest)) : rest.length < cs.length := by
  match cs with
  | [] => simp [matchToken] at h
  | c :: cs' =>
    by_cases hs : isSignChar c = true
    · by_cases hd : (takeDigits cs').1 = []
      · simp [matchToken, hs, hd] at h
      · cases htd2 : (takeDigits cs').2 with
        | nil => simp [matchToken, hs, hd, htd2] at h
        | cons u rest' =>
          by_cases hu : isUnitChar u = true
          · simp only [matchToken, hs, if_true, hd, if_neg hd, htd2, hu,
              if_false] at h
            simp only [Option.some.injEq, Prod.mk.injEq] at h
            obtain ⟨htok, hrest⟩ := h
            subst hrest
            have hlen := congrArg List.length (takeDigits_append cs')
            rw [htd2] at hlen
            simp only [List.length_append, List.length_cons] at hlen
            simp only [List.length_cons]
            omega
          · simp [matchToken, hs, hd, htd2, hu] at h
    · rw [Bool.not_eq_true] at hs
      by_cases hdg : c.isDigit = true
      · cases htd2 : (takeDigits (c :: cs')).2 with
        | nil => simp [matchToken, hs, hdg, htd2] at h
        | cons u rest' =>
          by_cases hu : isUnitChar u = true
          · simp only [matchToken, hs, Bool.false_eq_true, if_false, hdg, if_true,
              htd2, hu] at h
            simp only [Option.some.injEq, Prod.mk.injEq] at h
            obtain ⟨htok, hrest⟩ := h
            subst hrest
            have hlen := congrArg List.length (takeDigits_append (c :: cs'))
            rw [htd2] at hlen
            simp only [List.length_append, List.length_cons] at hlen
            simp only [List.length_cons]
            omega
          · simp [matchToken, hs, hdg, htd2, hu] at h
      · rw [Bool.not_eq_true] at hdg
        by_cases hsl : c = '/'
        · subst hsl
          cases cs' with
          | nil =>
            simp [matchToken, (by decide : isSignChar '/' = false),
              (by decide : Char.isDigit '/' = false)] at h
          | cons u rest' =>
            by_cases hu : isUnitChar u = true
            · simp only [matchToken, (by decide : isSignChar '/' = false),
                Bool.false_eq_true, if_false,
                (by decide : Char.isDigit '/' = false), if_pos rfl, hu,
                if_true] at h
              simp only [Option.some.injEq, Prod.mk.injEq] at h
              obtain ⟨htok, hrest⟩ := h
              subst hrest
              simp only [List.length_cons]
              omega
            · simp [matchToken, (by decide : isSignChar '/' = false),
                (by decide : Char.isDigit '/' = false), hu] at h
        · simp [matchToken, hs, hdg, hsl] at h

/-- Fueled left-to-right scan: take a token match where one starts, otherwise
skip one character. -/
def tokenizeAux : Nat → List Char → List (List Char)
  | 0, _ => []
  | _ + 1, [] => []
  | fuel + 1, c :: cs =>
    match matchToken (c :: cs) with
    | some (tok, rest) => tok :: tokenizeAux fuel rest
    | none => tokenizeAux fuel cs

/-- Extract all operation tokens of the expression remainder, left to right,
skipping unmatched characters (`operations.match(operationRegex) || []`). -/
def tokenize (cs : List Char) : List (List Char) := tokenizeAux cs.length cs

theorem tokenizeAux_irrel : ∀ f1 f2 cs, cs.length ≤ f1 → cs.length ≤ f2 →
    tokenizeAux f1 cs = tokenizeAux f2 cs := by
  intro f1
  induction f1 with
  | zero =>
    intro f2 cs h1 h2
    have hnil : cs = [] := by
      cases cs with
      | nil => rfl
      | cons c cs' => simp at h1
    subst hnil
    cases f2 <;> rfl
  | succ n ih =>
    intro f2 cs h1 h2
    cases cs with
    | nil => cases f2 <;> rfl
    | cons c cs' =>
      cases f2 with
      | zero => simp at h2
      | succ m =>
        cases hmt : matchToken (c :: cs') with
        | none =>
          simp only [tokenizeAux, hmt]
          exact ih m cs' (by simp at h1; omega) (by simp at h2; omega)
        | some pr =>
          obtain ⟨tok, rest⟩ := pr
          simp only [tokenizeAux, hmt]
          have hlen := matchToken_rest_length _ _ _ hmt
          simp only [List.length_cons] at h1 h2 hlen
          rw [ih m rest (by omega) (by omega)]

theorem tokenize_match (c : Char) (cs tok rest : List Char)
    (h : matchToken (c :: cs) = some (tok, rest)) :
    tokenize (c :: cs) = tok :: tokenize rest := by
  unfold tokenize
  simp only [List.length_cons, tokenizeAux, h]
  have hlen := matchToken_rest_length _ _ _ h
  simp only [List.length_cons] at hlen
  rw [tokenizeAux_irrel cs.length rest.length rest (by omega) (le_refl _)]

theorem tokenize_skip (c : Char) (cs : List Char)
    (h : matchToken (c :: cs) = none) : tokenize (c :: cs) = tokenize cs := by
  unfold tokenize
  simp only [List.length_cons, tokenizeAux, h]

/-! ### `parse` -/

/-- The two user-visible failure modes of `parse` (plus the internal
`Invalid rounding unit` error of `applyRounding`, which we show unreachable). -/
inductive FormatError where
  | missingNow : FormatError
  | invalidSign (tok : List Char) : FormatError
  | invalidUnit (u : Char) : FormatError
deriving DecidableEq

deriving instance DecidableEq for Except

/-- `parseInt` on the digit substring `operation.slice(1, -1)`. -/
def digitsToNat (ds : List Char) : Nat :=
  ds.foldl (fun a c => 10 * a + (c.toNat - 48)) 0

/-- `parseInt(operation.slice(1, -1)) || 1`: the default of 1 also fires when
the digits parse to `0`, because `0` is falsy. -/
def tokenValue (tok : List Char) : Nat :=
  let mid := (tok.drop 1).dropLast
  if mid = [] then 1
  else if digitsToNat mid = 0 then 1 else digitsToNat mid

/-- The `operationsArray.forEach` body, folded over the token list.  Each
token's first character is validated to be `+`, `-` or `/`; `/` rounds and
`+`/`-` adjust. -/
def runOps : List (List Char) → Int → Except FormatError Int
  | [], t => .ok t
  | tok :: rest, t =>
    match tok with
    | [] => runOps rest t
    | c :: cs =>
      if c = '+' ∨ c = '-' ∨ c = '/' then
        if c = '/' then
          match applyRounding t ((c :: cs).getLastD ' ') with
          | some t' => runOps rest t'
          | none => .error (.invalidUnit ((c :: cs).getLastD ' '))
        else
          runOps rest
            (applyAdjustment t c (tokenValue (c :: cs)) ((c :: cs).getLastD ' '))
      else .error (.invalidSign (c :: cs))

def nowChars : List Char := ['n', 'o', 'w']

/-- `parse(datestring)` from the source, with the base instant (`new Date()`)
made an explicit parameter. -/
def parse (s : List Char) (now : Int) : Except FormatError Int :=
  if s.take 3 = nowChars then runOps (tokenize (s.drop 3)) now
  else .error .missingNow

/-! ### Decimal rendering (JavaScript template interpolation of a number) -/

/-- Big-endian decimal digits of `n` (empty for `0`), with fuel for structural
recursion so that it kernel-reduces. -/
def natDigitsAux : Nat → Nat → List Char
  | 0, _ => []
  | _ + 1, 0 => []
  | fuel + 1, n => natDigitsAux fuel (n / 10) ++ [Char.ofNat (48 + n % 10)]

/-- Decimal rendering of a natural number, as `${n}` renders it. -/
def natRepr (n : Nat) : List Char := if n = 0 then ['0'] else natDigitsAux n n

/-- Decimal rendering of an integer, as `${n}` renders it (a leading `-` for
negative values). -/
def intRepr (n : Int) : List Char :=
  if n < 0 then '-' :: natRepr (-n).toNat else natRepr n.toNat

/-! ### `stringify` -/

/-- JavaScript's `%` on numbers: remainder with the sign of the dividend
(for a positive divisor). -/
def jsTruncMod (a b : Int) : Int := if 0 ≤ a then a % b else -((-a) % b)

def fallbackUnits : List (Char × Int) :=
  [('y', msInYear), ('M', msInMonth), ('w', msInWeek), ('d', msInDay),
   ('h', msInHour), ('m', msInMinute), ('s', msInSecond)]

/-- The `units.forEach` loop of `stringify`: greedy floor decomposition of the
absolute difference, appending `{sign}{value}{label}` for positive values. -/
def fallbackLoop (sign : Char) : List (Char × Int) → Int → List Char → List Char
  | [], _, acc => acc
  | (label, dur) :: us, remaining, acc =>
    fallbackLoop sign us (remaining % dur)
      (if remaining / dur > 0 then acc ++ sign :: (natRepr (remaining / dur).toNat ++ [label])
       else acc)

/-- The year-precision check of `stringify`: January 1, midnight. -/
def yearAligned (t : Int) : Prop :=
  getUTCMonth t = 0 ∧ getUTCDate t = 1 ∧ getUTCHours t = 0 ∧
    getUTCMinutes t = 0 ∧ getUTCSeconds t = 0 ∧ getUTCMilliseconds t = 0

/-- The month-precision check of `stringify`: day 1, midnight. -/
def monthAligned (t : Int) : Prop :=
  getUTCDate t = 1 ∧ getUTCHours t = 0 ∧ getUTCMinutes t = 0 ∧
    getUTCSeconds t = 0 ∧ getUTCMilliseconds t = 0

/-- The week-precision check of `stringify`: Sunday, midnight. -/
def weekAligned (t : Int) : Prop :=
  getUTCDay t = 0 ∧ getUTCHours t = 0 ∧ getUTCMinutes t = 0 ∧
    getUTCSeconds t = 0 ∧ getUTCMilliseconds t = 0

/-- The day-precision check of `stringify`: midnight. -/
def dayAligned (t : Int) : Prop :=
  getUTCHours t = 0 ∧ getUTCMinutes t = 0 ∧ getUTCSeconds t = 0 ∧
    getUTCMilliseconds t = 0

/-- The hour-precision check of `stringify`. -/
def hourAligned (t : Int) : Prop :=
  getUTCMinutes t = 0 ∧ getUTCSeconds t = 0 ∧ getUTCMilliseconds t = 0

/-- The minute-precision check of `stringify`. -/
def minuteAligned (t : Int) : Prop :=
  getUTCSeconds t = 0 ∧ getUTCMilliseconds t = 0

instance (t : Int) : Decidable (yearAligned t) := by unfold yearAligned; infer_instance
instance (t : Int) : Decidable (monthAligned t) := by unfold monthAligned; infer_instance
instance (t : Int) : Decidable (weekAligned t) := by unfold weekAligned; infer_instance
instance (t : Int) : Decidable (dayAligned t) := by unfold dayAligned; infer_instance
instance (t : Int) : Decidable (hourAligned t) := by unfold hourAligned; infer_instance
instance (t : Int) : Decidable (minuteAligned t) := by
  unfold minuteAligned; infer_instance

/-- `stringify(date)` from the source, with the reference instant (`Date.now()`)
made an explicit parameter. -/
def stringify (date now : Int) : List Char :=
  let timeDiff := date - now
  let sign : Char := if 0 ≤ timeDiff then '+' else '-'
  let absDiff := if 0 ≤ timeDiff then timeDiff else -timeDiff
  if yearAligned date then
    let years := getUTCFullYear date - getUTCFullYear now
    if years ≠ 0 then nowChars ++ sign :: (natRepr years.natAbs ++ ['y', '/', 'y'])
    else nowChars ++ ['/', 'y']
  else if monthAligned date then
    let months := (getUTCFullYear date - getUTCFullYear now) * 12 +
      getUTCMonth date - getUTCMonth now
    if months ≠ 0 then nowChars ++ sign :: (natRepr months.natAbs ++ ['M'])
    else nowChars ++ ['/', 'M']
  else if weekAligned date then
    let totalDays := (date - convertToDateOnly now) / msInDay
    let weeks := totalDays / 7
    let daysExtra := jsTruncMod totalDays 7
    if weeks ≠ 0 ∨ daysExtra ≠ 0 then
      nowChars ++ sign :: (intRepr (weeks * 7 + daysExtra) ++ ['d', '/', 'w'])
    else nowChars ++ ['/', 'w']
  else if dayAligned date then
    let days := absDiff / msInDay
    if days ≠ 0 then nowChars ++ sign :: (natRepr days.toNat ++ ['d'])
    else nowChars ++ ['/', 'd']
  else if hourAligned date then
    let hours := absDiff / msInHour
    if hours ≠ 0 then nowChars ++ sign :: (natRepr hours.toNat ++ ['h'])
    else nowChars ++ ['/', 'h']
  else if minuteAligned date then
    let minutes := absDiff / msInMinute
    if minutes ≠ 0 then nowChars ++ sign :: (natRepr minutes.toNat ++ ['m'])
    else nowChars ++ ['/', 'm']
  else fallbackLoop sign fallbackUnits absDiff nowChars

/-! ### Properties of the decimal rendering -/

theorem digitsToNat_concat (ds : List Char) (c : Char) :
    digitsToNat (ds ++ [c]) = 10 * digitsToNat ds + (c.toNat - 48) := by
  unfold digitsToNat
  rw [List.foldl_append]
  rfl

theorem digit_char_val : ∀ d : Nat, d < 10 → (Char.ofNat (48 + d)).toNat - 48 = d := by
  decide

theorem digit_char_isDigit : ∀ d : Nat, d < 10 →
    (Char.ofNat (48 + d)).isDigit = true := by decide

theorem natDigitsAux_digits :
    ∀ fuel n, ∀ c ∈ natDigitsAux fuel n, c.isDigit = true := by
  intro fuel
  induction fuel with
  | zero => intro n c hc; simp [natDigitsAux] at hc
  | succ f ih =>
    intro n c hc
    match n with
    | 0 => simp [natDigitsAux] at hc
    | m + 1 =>
      simp only [natDigitsAux, List.mem_append, List.mem_singleton] at hc
      rcases hc with hc | hc
      · exact ih _ c hc
      · subst hc
        exact digit_char_isDigit ((m + 1) % 10) (Nat.mod_lt _ (by omega))

theorem natDigitsAux_val : ∀ fuel n, n ≤ fuel →
    digitsToNat (natDigitsAux fuel n) = n := by
  intro fuel
  induction fuel with
  | zero =>
    intro n h
    have : n = 0 := by omega
    subst this
    rfl
  | succ f ih =>
    intro n h
    match n with
    | 0 => rfl
    | m + 1 =>
      simp only [natDigitsAux]
      rw [digitsToNat_concat]
      have hdiv : (m + 1) / 10 ≤ f := by omega
      rw [ih _ hdiv, digit_char_val ((m + 1) % 10) (Nat.mod_lt _ (by omega))]
      omega

theorem natRepr_digits (n : Nat) : ∀ c ∈ natRepr n, c.isDigit = true := by
  intro c hc
  unfold natRepr at hc
  split at hc
  · simp at hc
    subst hc
    decide
  · exact natDigitsAux_digits n n c hc

theorem natRepr_ne_nil (n : Nat) : natRepr n ≠ [] := by
  unfold natRepr
  split
  · simp
  · next h =>
    match hm : n with
    | 0 => omega
    | m + 1 => simp [natDigitsAux]

theorem natRepr_val (n : Nat) : digitsToNat (natRepr n) = n ∨ n = 0 := by
  unfold natRepr
  split
  · next h => exact Or.inr h
  · exact Or.inl (natDigitsAux_val n n (le_refl n))

/-! ### Tokenizing well-formed token text -/

theorem unitChar_cases (u : Char) (h : isUnitChar u = true) :
    u = 'd' ∨ u = 'M' ∨ u = 'y' ∨ u = 'h' ∨ u = 'm' ∨ u = 's' ∨ u = 'w' := by
  simp only [isUnitChar, Bool.or_eq_true, decide_eq_true_eq] at h
  tauto

theorem unit_not_digit (u : Char) (h : isUnitChar u = true) : u.isDigit = false := by
  rcases unitChar_cases u h with rfl | rfl | rfl | rfl | rfl | rfl | rfl <;> decide

theorem takeDigits_exact :
    ∀ (ds : List Char) (u : Char) (rest : List Char),
      (∀ c ∈ ds, c.isDigit = true) → u.isDigit = false →
      takeDigits (ds ++ u :: rest) = (ds, u :: rest) := by
  intro ds
  induction ds with
  | nil =>
    intro u rest _ hu
    simp [takeDigits, hu]
  | cons c ds ih =>
    intro u rest hdig hu
    have hc : c.isDigit = true := hdig c (by simp)
    simp only [List.cons_append, takeDigits, hc, if_true, List.append_eq]
    rw [ih u rest (fun x hx => hdig x (by simp [hx])) hu]

theorem matchToken_signTok (s : Char) (ds : List Char) (u : Char) (rest : List Char)
    (hs : isSignChar s = true) (hds : ds ≠ [])
    (hdig : ∀ c ∈ ds, c.isDigit = true) (hu : isUnitChar u = true) :
    matchToken (s :: (ds ++ u :: rest)) = some (s :: (ds ++ [u]), rest) := by
  have htd := takeDigits_exact ds u rest hdig (unit_not_digit u hu)
  simp [matchToken, hs, htd, hds, hu]

theorem matchToken_slashTok (u : Char) (rest : List Char) (hu : isUnitChar u = true) :
    matchToken ('/' :: u :: rest) = some (['/', u], rest) := by
  simp [matchToken, (by decide : isSignChar '/' = false),
    (by decide : Char.isDigit '/' = false), hu]

theorem tokenize_signTok (s : Char) (ds : List Char) (u : Char) (rest : List Char)
    (hs : isSignChar s = true) (hds : ds ≠ [])
    (hdig : ∀ c ∈ ds, c.isDigit = true) (hu : isUnitChar u = true) :
    tokenize ((s :: (ds ++ [u])) ++ rest) = (s :: (ds ++ [u])) :: tokenize rest := by
  have he : (s :: (ds ++ [u])) ++ rest = s :: (ds ++ u :: rest) := by simp
  rw [he, tokenize_match s (ds ++ u :: rest) _ rest
    (matchToken_signTok s ds u rest hs hds hdig hu)]

theorem tokenize_slashTok (u : Char) (rest : List Char) (hu : isUnitChar u = true) :
    tokenize (['/', u] ++ rest) = ['/', u] :: tokenize rest := by
  exact tokenize_match '/' (u :: rest) _ rest (matchToken_slashTok u rest hu)

theorem getLastD_concat_char : ∀ (l : List Char) (a d : Char), (l ++ [a]).getLastD d = a := by
  intro l
  induction l with
  | nil => intro a d; rfl
  | cons c cs ih =>
    intro a d
    simp only [List.cons_append, List.getLastD_cons]
    exact ih a c

theorem tokenValue_signTok (s : Char) (ds : List Char) (u : Char) :
    tokenValue (s :: (ds ++ [u])) =
      if digitsToNat ds = 0 then 1 else digitsToNat ds := by
  unfold tokenValue
  simp only [List.drop_succ_cons, List.drop_zero]
  rw [List.dropLast_concat]
  split
  · next h => simp [h, digitsToNat]
  · rfl

/-! ### Stepping `runOps` over well-formed tokens -/

theorem runOps_adjTok (s : Char) (ds : List Char) (u : Char)
    (toks : List (List Char)) (t : Int) (hs : s = '+' ∨ s = '-') :
    runOps ((s :: (ds ++ [u])) :: toks) t =
      runOps toks (applyAdjustment t s (tokenValue (s :: (ds ++ [u]))) u) := by
  have hl : ((s :: (ds ++ [u])) : List Char).getLastD ' ' = u := by
    have he : s :: (ds ++ [u]) = (s :: ds) ++ [u] := by simp
    rw [he, getLastD_concat_char]
  have hslash : ¬ (s = '/') := by rcases hs with rfl | rfl <;> decide
  simp only [runOps, hl]
  rw [if_pos (by tauto), if_neg hslash]


theorem runOps_slashTok (u : Char) (toks : List (List Char)) (t t' : Int)
    (h : applyRounding t u = some t') :
    runOps (['/', u] :: toks) t = runOps toks t' := by
  have hl : (['/', u] : List Char).getLastD ' ' = u := rfl
  simp only [runOps, hl, h]
  simp

theorem parse_now (r : List Char) (now : Int) :
    parse (nowChars ++ r) now = runOps (tokenize r) now := by
  unfold parse
  rw [if_pos (by simp [nowChars])]
  simp [nowChars]

/-! ### Closed forms for fixed-duration adjustments -/

theorem applyAdjustment_d (t v : Int) (s : Char) :
    applyAdjustment t s v 'd' = t + v * (if s = '+' then 1 else -1) * msInDay := by
  simp [applyAdjustment, setUTCDate_add]

theorem applyAdjustment_w (t v : Int) (s : Char) :
    applyAdjustment t s v 'w' =
      t + v * 7 * (if s = '+' then 1 else -1) * msInDay := by
  simp [applyAdjustment, setUTCDate_add]

theorem applyAdjustment_h (t v : Int) (s : Char) :
    applyAdjustment t s v 'h' = t + v * (if s = '+' then 1 else -1) * msInHour := by
  simp [applyAdjustment, setUTCHours1_add]

theorem applyAdjustment_m (t v : Int) (s : Char) :
    applyAdjustment t s v 'm' = t + v * (if s = '+' then 1 else -1) * msInMinute := by
  simp [applyAdjustment, setUTCMinutes1_add]

theorem applyAdjustment_s (t v : Int) (s : Char) :
    applyAdjustment t s v 's' = t + v * (if s = '+' then 1 else -1) * msInSecond := by
  simp [applyAdjustment, setUTCSeconds1_add]

/-! ### Further closed forms used by the claims -/

/-- Epoch milliseconds of a UTC civil datetime (helper for readable claim
statements). -/
def utc (y mo d h mi s ms : Int) : Int :=
  daysFromCivil y mo d * msInDay + h * msInHour + mi * msInMinute +
    s * msInSecond + ms

theorem dayNumber_mul (k : Int) : dayNumber (k * msInDay) = k := by
  unfold dayNumber msInDay
  omega

theorem applyAdjustment_y (t v : Int) (s : Char) :
    applyAdjustment t s v 'y' =
      setUTCFullYear t (getUTCFullYear t + v * (if s = '+' then 1 else -1)) := by
  simp [applyAdjustment]

theorem getUTCDate_bounds (t : Int) : 1 ≤ getUTCDate t ∧ getUTCDate t ≤ 31 := by
  have h := mp_bounds (dayNumber t)
  unfold getUTCDate
  exact ⟨h.2.2.2.2.1, h.2.2.2.2.2⟩

theorem getUTCMonth_bounds (t : Int) : 0 ≤ getUTCMonth t ∧ getUTCMonth t ≤ 11 := by
  have h := month_bounds (dayNumber t)
  unfold getUTCMonth
  omega

/-- Setting the full year gives an instant whose year is the one set. -/
theorem getUTCFullYear_setUTCFullYear (t y : Int) :
    getUTCFullYear (setUTCFullYear t y) = y := by
  have hmb := getUTCMonth_bounds t
  have hdb := getUTCDate_bounds t
  have hdec := dayNumber_decomp t
  unfold setUTCFullYear makeDay
  have h12 : (getUTCMonth t) / 12 = 0 := by omega
  have h12' : (getUTCMonth t) % 12 = getUTCMonth t := by omega
  rw [h12, h12', add_zero]
  have hdn : dayNumber (daysFromCivil y (getUTCMonth t + 1) (getUTCDate t) * msInDay
      + timeWithinDay t) = daysFromCivil y (getUTCMonth t + 1) (getUTCDate t) := by
    unfold dayNumber msInDay
    unfold msInDay at hdec
    omega
  unfold getUTCFullYear
  rw [hdn]
  exact cfdYear_dfc y (getUTCMonth t + 1) (getUTCDate t) (by omega) (by omega)
    hdb.1 hdb.2

/-- Every valid rounding unit rounds successfully. -/
theorem applyRounding_isSome (t : Int) (u : Char) (hu : isUnitChar u = true) :
    ∃ t', applyRounding t u = some t' := by
  rcases unitChar_cases u hu with rfl | rfl | rfl | rfl | rfl | rfl | rfl
  · exact ⟨_, roundD t⟩
  · exact ⟨_, roundM t⟩
  · exact ⟨_, roundY t⟩
  · exact ⟨_, roundH t⟩
  · exact ⟨_, roundMin t⟩
  · exact ⟨_, roundS t⟩
  · exact ⟨_, roundW t⟩

/-! ### C2 — concrete parse scenarios -/

/-- C2: with the reference instant fixed at `2020-06-12T13:20:17.486Z`,
`parse` returns exactly the five documented instants:
`now-1y/y → 2019-01-01`, `now/y → 2020-01-01`, `now/w → 2020-06-07`,
`now+2d/w → 2020-06-14`, `now-4d-4h+13m/d → 2020-06-08` (all at midnight
UTC). -/
theorem claim_C2 :
    parse "now-1y/y".toList (utc 2020 6 12 13 20 17 486) =
      .ok (utc 2019 1 1 0 0 0 0) ∧
    parse "now/y".toList (utc 2020 6 12 13 20 17 486) =
      .ok (utc 2020 1 1 0 0 0 0) ∧
    parse "now/w".toList (utc 2020 6 12 13 20 17 486) =
      .ok (utc 2020 6 7 0 0 0 0) ∧
    parse "now+2d/w".toList (utc 2020 6 12 13 20 17 486) =
      .ok (utc 2020 6 14 0 0 0 0) ∧
    parse "now-4d-4h+13m/d".toList (utc 2020 6 12 13 20 17 486) =
      .ok (utc 2020 6 8 0 0 0 0) := by
  refine ⟨?_, ?_, ?_, ?_, ?_⟩ <;> decide

/-! ### C4 — operation order sensitivity -/

/-- C4, counterexample to the claim as stated: for the specific pair
`now-4d/h` and `now/h-4d` there is NO reference instant at which the two
parses differ — a 4-day adjustment is a whole number of hours, so
adjust-then-round and round-then-adjust commute at hour rounding. -/
theorem claim_C4_cex :
    ¬ ∃ now : Int, parse "now-4d/h".toList now ≠ parse "now/h-4d".toList now := by
  intro ⟨now, hne⟩
  apply hne
  have h1 : parse "now-4d/h".toList now =
      runOps [['-', '4', 'd'], ['/', 'h']] now := by
    have he : "now-4d/h".toList = nowChars ++ "-4d/h".toList := rfl
    rw [he, parse_now]
    have ht : tokenize "-4d/h".toList = [['-', '4', 'd'], ['/', 'h']] := by decide
    rw [ht]
  have h2 : parse "now/h-4d".toList now =
      runOps [['/', 'h'], ['-', '4', 'd']] now := by
    have he : "now/h-4d".toList = nowChars ++ "/h-4d".toList := rfl
    rw [he, parse_now]
    have ht : tokenize "/h-4d".toList = [['/', 'h'], ['-', '4', 'd']] := by decide
    rw [ht]
  have hv : tokenValue ['-', '4', 'd'] = 4 := by decide
  have s1 : runOps [['-', '4', 'd'], ['/', 'h']] now =
      runOps [['/', 'h']] (applyAdjustment now '-' 4 'd') := by
    have hstep : runOps [['-', '4', 'd'], ['/', 'h']] now =
        runOps [['/', 'h']]
          (applyAdjustment now '-' (↑(tokenValue ['-', '4', 'd'])) 'd') :=
      runOps_adjTok '-' ['4'] 'd' [['/', 'h']] now (Or.inr rfl)
    rw [hv] at hstep
    exact_mod_cast hstep
  have s2 : runOps [['/', 'h']] (applyAdjustment now '-' 4 'd') =
      runOps [] ((applyAdjustment now '-' 4 'd') / msInHour * msInHour) :=
    runOps_slashTok 'h' [] _ _ (roundH _)
  have s3 : runOps [['/', 'h'], ['-', '4', 'd']] now =
      runOps [['-', '4', 'd']] (now / msInHour * msInHour) :=
    runOps_slashTok 'h' _ _ _ (roundH _)
  have s4 : runOps [['-', '4', 'd']] (now / msInHour * msInHour) =
      runOps [] (applyAdjustment (now / msInHour * msInHour) '-' 4 'd') := by
    have hstep : runOps [['-', '4', 'd']] (now / msInHour * msInHour) =
        runOps []
          (applyAdjustment (now / msInHour * msInHour) '-'
            (↑(tokenValue ['-', '4', 'd'])) 'd') :=
      runOps_adjTok '-' ['4'] 'd' [] (now / msInHour * msInHour) (Or.inr rfl)
    rw [hv] at hstep
    exact_mod_cast hstep
  rw [h1, h2, s1, s2, s3, s4]
  have e1 := applyAdjustment_d now 4 '-'
  have e2 := applyAdjustment_d (now / msInHour * msInHour) 4 '-'
  rw [e1, e2]
  refine congrArg (fun x => runOps [] x) ?_
  unfold msInDay msInHour
  norm_num
  omega

/-- C4, amended: order sensitivity does hold once the adjustment is not a
multiple of the rounding unit: `parse("now-4h/d")` and `parse("now/d-4h")`
differ for some reference instant. -/
theorem claim_C4 :
    ∃ now : Int, parse "now-4h/d".toList now ≠ parse "now/d-4h".toList now := by
  refine ⟨utc 2020 6 12 13 20 17 486, ?_⟩
  decide

/-! ### C5 — the magnitude of an adjustment token -/

/-- C5: the code does NOT apply the written magnitude when it is `0`:
`parseInt('0') || 1` falls back to 1 because `0` is falsy, so
`parse("now+0d")` adds one whole day to every reference instant instead of
leaving it unchanged. -/
theorem claim_C5 (now : Int) :
    parse "now+0d".toList now = .ok (now + msInDay) := by
  have h1 : parse "now+0d".toList now = runOps [['+', '0', 'd']] now := by
    have he : "now+0d".toList = nowChars ++ "+0d".toList := rfl
    rw [he, parse_now]
    have ht : tokenize "+0d".toList = [['+', '0', 'd']] := by decide
    rw [ht]
  have hv : tokenValue ['+', '0', 'd'] = 1 := by decide
  have s1 : runOps [['+', '0', 'd']] now =
      runOps [] (applyAdjustment now '+' 1 'd') := by
    have hstep : runOps [['+', '0', 'd']] now =
        runOps [] (applyAdjustment now '+' (↑(tokenValue ['+', '0', 'd'])) 'd') :=
      runOps_adjTok '+' ['0'] 'd' [] now (Or.inl rfl)
    rw [hv] at hstep
    exact_mod_cast hstep
  rw [h1, s1, applyAdjustment_d]
  simp [runOps]

/-! ### C6 — sign symmetry of adjustments -/

/-- C6, counterexample to the claim as stated: at the reference instant
`2020-03-31T00:00:00Z` with `n = 1` and unit `M`, `now+1M` lands on
`2020-05-01` (+31 days, via day-of-month overflow) while `now-1M` lands on
`2020-03-02` (−29 days): the two calendar adjustments are not equal and
opposite, and applying `+1M` then `-1M` does not return to the reference. -/
theorem claim_C6_cex :
    parse "now+1M".toList (utc 2020 3 31 0 0 0 0) = .ok (utc 2020 5 1 0 0 0 0) ∧
    parse "now-1M".toList (utc 2020 3 31 0 0 0 0) = .ok (utc 2020 3 2 0 0 0 0) ∧
    ¬ (utc 2020 5 1 0 0 0 0 - utc 2020 3 31 0 0 0 0 =
        utc 2020 3 31 0 0 0 0 - utc 2020 3 2 0 0 0 0) ∧
    applyAdjustment (applyAdjustment (utc 2020 3 31 0 0 0 0) '+' 1 'M') '-' 1 'M' ≠
      utc 2020 3 31 0 0 0 0 := by
  refine ⟨by decide, by decide, by decide, by decide⟩

/-- Fixed unit duration in milliseconds for the non-calendar units. -/
def fixedUnitMs (u : Char) : Int :=
  if u = 'd' then msInDay
  else if u = 'h' then msInHour
  else if u = 'm' then msInMinute
  else if u = 's' then msInSecond
  else if u = 'w' then 7 * msInDay
  else 0

/-- C6, amended: sign symmetry holds for every positive magnitude and every
fixed-duration unit (`s`, `m`, `h`, `d`, `w`): `now+Nu` and `now-Nu` move the
reference by exactly `N` units in opposite directions (hence applying one and
then the other returns to the reference).  For the calendar units `M` and `y`
it fails (see the counterexample). -/
theorem claim_C6 (now : Int) (n : Nat) (u : Char) (h0 : 0 < n)
    (hu : u = 'd' ∨ u = 'h' ∨ u = 'm' ∨ u = 's' ∨ u = 'w') :
    parse (nowChars ++ '+' :: (natRepr n ++ [u])) now =
      .ok (now + (n : Int) * fixedUnitMs u) ∧
    parse (nowChars ++ '-' :: (natRepr n ++ [u])) now =
      .ok (now - (n : Int) * fixedUnitMs u) := by
  have hds := natRepr_digits n
  have hne := natRepr_ne_nil n
  have hval : digitsToNat (natRepr n) = n := by
    rcases natRepr_val n with h | h
    · exact h
    · omega
  have huu : isUnitChar u = true := by
    rcases hu with rfl | rfl | rfl | rfl | rfl <;> decide
  have key : ∀ s : Char, s = '+' ∨ s = '-' →
      parse (nowChars ++ s :: (natRepr n ++ [u])) now =
        .ok (applyAdjustment now s (n : Int) u) := by
    intro s hs
    rw [parse_now]
    have hsign : isSignChar s = true := by rcases hs with rfl | rfl <;> decide
    have he : s :: (natRepr n ++ [u]) = (s :: (natRepr n ++ [u])) ++ [] := by simp
    rw [he, tokenize_signTok s (natRepr n) u [] hsign hne hds huu]
    have ht : tokenize ([] : List Char) = [] := rfl
    rw [ht]
    have hstep : runOps [s :: (natRepr n ++ [u])] now =
        runOps [] (applyAdjustment now s (tokenValue (s :: (natRepr n ++ [u]))) u) :=
      runOps_adjTok s (natRepr n) u [] now hs
    rw [hstep, tokenValue_signTok, hval, if_neg (by omega)]
    rfl
  constructor
  · rw [key '+' (Or.inl rfl)]
    refine congrArg Except.ok ?_
    rcases hu with rfl | rfl | rfl | rfl | rfl
    · rw [applyAdjustment_d, if_pos rfl, show fixedUnitMs 'd' = msInDay from rfl]; ring
    · rw [applyAdjustment_h, if_pos rfl, show fixedUnitMs 'h' = msInHour from rfl]; ring
    · rw [applyAdjustment_m, if_pos rfl,
        show fixedUnitMs 'm' = msInMinute from rfl]; ring
    · rw [applyAdjustment_s, if_pos rfl,
        show fixedUnitMs 's' = msInSecond from rfl]; ring
    · rw [applyAdjustment_w, if_pos rfl,
        show fixedUnitMs 'w' = 7 * msInDay from rfl]; ring
  · rw [key '-' (Or.inr rfl)]
    refine congrArg Except.ok ?_
    rcases hu with rfl | rfl | rfl | rfl | rfl
    · rw [applyAdjustment_d, if_neg (by decide),
        show fixedUnitMs 'd' = msInDay from rfl]; ring
    · rw [applyAdjustment_h, if_neg (by decide),
        show fixedUnitMs 'h' = msInHour from rfl]; ring
    · rw [applyAdjustment_m, if_neg (by decide),
        show fixedUnitMs 'm' = msInMinute from rfl]; ring
    · rw [applyAdjustment_s, if_neg (by decide),
        show fixedUnitMs 's' = msInSecond from rfl]; ring
    · rw [applyAdjustment_w, if_neg (by decide),
        show fixedUnitMs 'w' = 7 * msInDay from rfl]; ring

/-- Witness for C6 at `n = 3`, `u = 'h'`, a concrete reference. -/
theorem claim_C6_witness :
    0 < 3 ∧
    parse (nowChars ++ '+' :: (natRepr 3 ++ ['h'])) (utc 2020 6 12 13 20 17 486) =
      .ok (utc 2020 6 12 13 20 17 486 + 3 * fixedUnitMs 'h') ∧
    parse (nowChars ++ '-' :: (natRepr 3 ++ ['h'])) (utc 2020 6 12 13 20 17 486) =
      .ok (utc 2020 6 12 13 20 17 486 - 3 * fixedUnitMs 'h') := by
  refine ⟨by decide, ?_, ?_⟩
  · exact (claim_C6 (utc 2020 6 12 13 20 17 486) 3 'h' (by decide)
      (Or.inr (Or.inl rfl))).1
  · exact (claim_C6 (utc 2020 6 12 13 20 17 486) 3 'h' (by decide)
      (Or.inr (Or.inl rfl))).2

/-! ### C7 — idempotent rounding -/

/-- C7: rounding is idempotent: for every unit and every instant, applying
`Round(u)` to an already-`u`-rounded instant returns it unchanged. -/
theorem claim_C7 (t : Int) (u : Char) (hu : isUnitChar u = true) (t' : Int)
    (h : applyRounding t u = some t') : applyRounding t' u = some t' := by
  rcases unitChar_cases u hu with rfl | rfl | rfl | rfl | rfl | rfl | rfl
  · rw [roundD t] at h
    rw [Option.some.injEq] at h
    subst h
    rw [roundD]
    refine congrArg some ?_
    unfold msInDay
    omega
  · rw [roundM t] at h
    rw [Option.some.injEq] at h
    subst h
    rw [roundM]
    have hmb := month_bounds (dayNumber t)
    have hinv := civilFromDays_dfc1 (getUTCFullYear t) (getUTCMonth t + 1)
      (by unfold getUTCMonth; omega) (by unfold getUTCMonth; omega)
    simp only [civilFromDays, Prod.mk.injEq] at hinv
    have hdn := dayNumber_mul
      (daysFromCivil (getUTCFullYear t) (getUTCMonth t + 1) 1)
    have hY : getUTCFullYear
        (daysFromCivil (getUTCFullYear t) (getUTCMonth t + 1) 1 * msInDay) =
        getUTCFullYear t := by
      rw [show ∀ x : Int, getUTCFullYear x = cfdYear (dayNumber x) from fun _ => rfl,
        hdn]
      exact hinv.1
    have hM : getUTCMonth
        (daysFromCivil (getUTCFullYear t) (getUTCMonth t + 1) 1 * msInDay) =
        getUTCMonth t := by
      rw [show getUTCMonth
          (daysFromCivil (getUTCFullYear t) (getUTCMonth t + 1) 1 * msInDay) =
          cfdMonth (dayNumber
            (daysFromCivil (getUTCFullYear t) (getUTCMonth t + 1) 1 * msInDay)) - 1
          from rfl, hdn, hinv.2.1]
      ring
    rw [hY, hM]
  · rw [roundY t] at h
    rw [Option.some.injEq] at h
    subst h
    rw [roundY]
    have hinv := civilFromDays_dfc1 (getUTCFullYear t) 1 (by norm_num) (by norm_num)
    simp only [civilFromDays, Prod.mk.injEq] at hinv
    have hdn := dayNumber_mul (daysFromCivil (getUTCFullYear t) 1 1)
    have hY : getUTCFullYear (daysFromCivil (getUTCFullYear t) 1 1 * msInDay) =
        getUTCFullYear t := by
      rw [show ∀ x : Int, getUTCFullYear x = cfdYear (dayNumber x) from fun _ => rfl,
        hdn]
      exact hinv.1
    rw [hY]
  · rw [roundH t] at h
    rw [Option.some.injEq] at h
    subst h
    rw [roundH]
    refine congrArg some ?_
    unfold msInHour
    omega
  · rw [roundMin t] at h
    rw [Option.some.injEq] at h
    subst h
    rw [roundMin]
    refine congrArg some ?_
    unfold msInMinute
    omega
  · rw [roundS t] at h
    rw [Option.some.injEq] at h
    subst h
    rw [roundS]
    refine congrArg some ?_
    unfold msInSecond
    omega
  · rw [roundW t] at h
    rw [Option.some.injEq] at h
    subst h
    rw [roundW]
    refine congrArg some ?_
    unfold getUTCDay dayNumber msInDay
    omega

/-- Witness for C7 at unit `M` and the test reference instant. -/
theorem claim_C7_witness :
    isUnitChar 'M' = true ∧
    applyRounding (utc 2020 6 12 13 20 17 486) 'M' = some (utc 2020 6 1 0 0 0 0) ∧
    applyRounding (utc 2020 6 1 0 0 0 0) 'M' = some (utc 2020 6 1 0 0 0 0) := by
  refine ⟨by decide, by decide, ?_⟩
  exact claim_C7 (utc 2020 6 12 13 20 17 486) 'M' (by decide) (utc 2020 6 1 0 0 0 0)
    (by decide)

/-! ### Shapes of matched tokens, and the failure modes of `runOps` -/

/-- A token whose first character is not one of the three markers. -/
def tokBadHead (tok : List Char) : Bool :=
  match tok with
  | [] => false
  | c :: _ => !(c = '+' || c = '-' || c = '/')

/-- The three shapes a matched token can have: sign-digits-unit,
digits-unit, or slash-unit. -/
inductive TokShape : List Char → Prop where
  | sign (s : Char) (ds : List Char) (u : Char) : isSignChar s = true → ds ≠ [] →
      (∀ c ∈ ds, c.isDigit = true) → isUnitChar u = true →
      TokShape (s :: (ds ++ [u]))
  | digits (ds : List Char) (u : Char) : ds ≠ [] →
      (∀ c ∈ ds, c.isDigit = true) → isUnitChar u = true → TokShape (ds ++ [u])
  | slash (u : Char) : isUnitChar u = true → TokShape ('/' :: [u])

theorem signChar_cases (s : Char) (h : isSignChar s = true) : s = '+' ∨ s = '-' := by
  simp only [isSignChar, Bool.or_eq_true, decide_eq_true_eq] at h
  exact h

theorem takeDigits_digits : ∀ cs, ∀ c ∈ (takeDigits cs).1, c.isDigit = true := by
  intro cs
  induction cs with
  | nil => intro c hc; simp [takeDigits] at hc
  | cons a as ih =>
    intro c hc
    by_cases ha : a.isDigit = true
    · simp only [takeDigits, ha, if_true, List.mem_cons] at hc
      rcases hc with rfl | hc
      · exact ha
      · exact ih c hc
    · rw [Bool.not_eq_true] at ha
      simp [takeDigits, ha] at hc

theorem matchToken_shape (cs tok rest : List Char)
    (h : matchToken cs = some (tok, rest)) : TokShape tok := by
  match cs with
  | [] => simp [matchToken] at h
  | c :: cs' =>
    by_cases hs : isSignChar c = true
    · by_cases hd : (takeDigits cs').1 = []
      · simp [matchToken, hs, hd] at h
      · cases htd2 : (takeDigits cs').2 with
        | nil => simp [matchToken, hs, hd, htd2] at h
        | cons u rest' =>
          by_cases hu : isUnitChar u = true
          · simp only [matchToken, hs, if_true, hd, if_neg hd, htd2, hu,
              if_false] at h
            simp only [Option.some.injEq, Prod.mk.injEq] at h
            obtain ⟨htok, hrest⟩ := h
            rw [← htok]
            exact TokShape.sign c _ u hs hd (takeDigits_digits cs') hu
          · simp [matchToken, hs, hd, htd2, hu] at h
    · rw [Bool.not_eq_true] at hs
      by_cases hdg : c.isDigit = true
      · cases htd2 : (takeDigits (c :: cs')).2 with
        | nil => simp [matchToken, hs, hdg, htd2] at h
        | cons u rest' =>
          by_cases hu : isUnitChar u = true
          · simp only [matchToken, hs, Bool.false_eq_true, if_false, hdg, if_true,
              htd2, hu] at h
            simp only [Option.some.injEq, Prod.mk.injEq] at h
            obtain ⟨htok, hrest⟩ := h
            rw [← htok]
            refine TokShape.digits _ u ?_ (takeDigits_digits (c :: cs')) hu
            simp [takeDigits, hdg]
          · simp [matchToken, hs, hdg, htd2, hu] at h
      · rw [Bool.not_eq_true] at hdg
        by_cases hsl : c = '/'
        · subst hsl
          cases cs' with
          | nil =>
            simp [matchToken, (by decide : isSignChar '/' = false),
              (by decide : Char.isDigit '/' = false)] at h
          | cons u rest' =>
            by_cases hu : isUnitChar u = true
            · simp only [matchToken, (by decide : isSignChar '/' = false),
                Bool.false_eq_true, if_false,
                (by decide : Char.isDigit '/' = false), if_pos rfl, hu,
                if_true] at h
              simp only [Option.some.injEq, Prod.mk.injEq] at h
              obtain ⟨htok, hrest⟩ := h
              rw [← htok]
              exact TokShape.slash u hu
            · simp [matchToken, (by decide : isSignChar '/' = false),
                (by decide : Char.isDigit '/' = false), hu] at h
        · simp [matchToken, hs, hdg, hsl] at h

theorem tokenizeAux_shape :
    ∀ fuel cs tok, tok ∈ tokenizeAux fuel cs → TokShape tok := by
  intro fuel
  induction fuel with
  | zero => intro cs tok h; simp [tokenizeAux] at h
  | succ n ih =>
    intro cs tok h
    cases cs with
    | nil => simp [tokenizeAux] at h
    | cons c cs' =>
      cases hmt : matchToken (c :: cs') with
      | none =>
        rw [show tokenizeAux (n + 1) (c :: cs') = tokenizeAux n cs' by
          simp only [tokenizeAux, hmt]] at h
        exact ih cs' tok h
      | some pr =>
        obtain ⟨tk, rest⟩ := pr
        rw [show tokenizeAux (n + 1) (c :: cs') = tk :: tokenizeAux n rest by
          simp only [tokenizeAux, hmt]] at h
        rcases List.mem_cons.mp h with rfl | h
        · exact matchToken_shape (c :: cs') tok rest hmt
        · exact ih rest tok h

theorem tokenize_shape (cs : List Char) : ∀ tok ∈ tokenize cs, TokShape tok :=
  fun tok h => tokenizeAux_shape cs.length cs tok h

/-- Stepping over a well-formed, well-headed token always succeeds. -/
theorem runOps_step (tok : List Char) (toks : List (List Char)) (t : Int)
    (hsh : TokShape tok) (hgood : tokBadHead tok = false) :
    ∃ t', runOps (tok :: toks) t = runOps toks t' := by
  cases hsh with
  | sign s ds u hs hne hdig hu =>
    exact ⟨_, runOps_adjTok s ds u toks t (signChar_cases s hs)⟩
  | digits ds u hne hdig hu =>
    exfalso
    obtain ⟨d, ds', rfl⟩ := List.exists_cons_of_ne_nil hne
    have hd : d.isDigit = true := hdig d (by simp)
    have hgood' : (!(decide (d = '+') || decide (d = '-') || decide (d = '/'))) =
        false := hgood
    have hcase : d = '+' ∨ d = '-' ∨ d = '/' := by
      by_contra hcon
      push_neg at hcon
      obtain ⟨h1, h2, h3⟩ := hcon
      simp [h1, h2, h3] at hgood'
    rcases hcase with rfl | rfl | rfl <;> exact absurd hd (by decide)
  | slash u hu =>
    obtain ⟨t', ht'⟩ := applyRounding_isSome t u hu
    exact ⟨t', runOps_slashTok u toks t t' ht'⟩

/-- A token with a bad head makes `runOps` fail with `invalidSign` carrying
that token verbatim. -/
theorem runOps_step_bad (tok : List Char) (toks : List (List Char)) (t : Int)
    (hbad : tokBadHead tok = true) :
    runOps (tok :: toks) t = .error (.invalidSign tok) := by
  match tok with
  | [] => simp [tokBadHead] at hbad
  | c :: cs =>
    have hm : ¬ (c = '+' ∨ c = '-' ∨ c = '/') := by
      simp only [tokBadHead, Bool.not_eq_true', Bool.or_eq_false_iff,
        decide_eq_false_iff_not] at hbad
      tauto
    simp only [runOps, if_neg hm]

theorem runOps_good (toks : List (List Char)) (t : Int)
    (hsh : ∀ tok ∈ toks, TokShape tok)
    (hgood : ∀ tok ∈ toks, tokBadHead tok = false) :
    ∃ v, runOps toks t = .ok v := by
  induction toks generalizing t with
  | nil => exact ⟨t, rfl⟩
  | cons tok rest ih =>
    obtain ⟨t', ht'⟩ := runOps_step tok rest t (hsh tok (by simp))
      (hgood tok (by simp))
    rw [ht']
    exact ih t' (fun tk hk => hsh tk (by simp [hk])) (fun tk hk => hgood tk (by simp [hk]))

theorem runOps_bad (toks : List (List Char)) (t : Int)
    (hsh : ∀ tok ∈ toks, TokShape tok)
    (hbad : ∃ tok ∈ toks, tokBadHead tok = true) :
    ∃ tok, runOps toks t = .error (.invalidSign tok) ∧ tok ∈ toks ∧
      tokBadHead tok = true := by
  induction toks generalizing t with
  | nil => simp at hbad
  | cons tok rest ih =>
    by_cases hb : tokBadHead tok = true
    · exact ⟨tok, runOps_step_bad tok rest t hb, by simp, hb⟩
    · rw [Bool.not_eq_true] at hb
      obtain ⟨t', ht'⟩ := runOps_step tok rest t (hsh tok (by simp)) hb
      have hbad' : ∃ tk ∈ rest, tokBadHead tk = true := by
        obtain ⟨tk, hmem, htk⟩ := hbad
        rcases List.mem_cons.mp hmem with rfl | hmem
        · rw [hb] at htk; exact absurd htk (by simp)
        · exact ⟨tk, hmem, htk⟩
      obtain ⟨tk, h1, h2, h3⟩ := ih t' (fun x hx => hsh x (by simp [hx])) hbad'
      exact ⟨tk, by rw [ht']; exact h1, by simp [h2], h3⟩

theorem runOps_no_missing (toks : List (List Char)) (t : Int) :
    runOps toks t ≠ .error .missingNow := by
  induction toks generalizing t with
  | nil => simp [runOps]
  | cons tok rest ih =>
    match tok with
    | [] =>
      rw [show runOps ([] :: rest) t = runOps rest t from rfl]
      exact ih t
    | c :: cs =>
      by_cases hm : c = '+' ∨ c = '-' ∨ c = '/'
      · by_cases hsl : c = '/'
        · simp only [runOps, if_pos hm, if_pos hsl]
          cases happ : applyRounding t ((c :: cs).getLastD ' ') with
          | none => simp
          | some t' => exact ih t'
        · simp only [runOps, if_pos hm, if_neg hsl]
          exact ih _
      · simp only [runOps, if_neg hm]
        simp

theorem runOps_no_invalidUnit (toks : List (List Char)) (t : Int)
    (hsh : ∀ tok ∈ toks, TokShape tok) :
    ∀ u, runOps toks t ≠ .error (.invalidUnit u) := by
  induction toks generalizing t with
  | nil => intro u; simp [runOps]
  | cons tok rest ih =>
    intro u
    by_cases hb : tokBadHead tok = true
    · rw [runOps_step_bad tok rest t hb]
      simp
    · rw [Bool.not_eq_true] at hb
      obtain ⟨t', ht'⟩ := runOps_step tok rest t (hsh tok (by simp)) hb
      rw [ht']
      exact ih t' (fun x hx => hsh x (by simp [hx])) u

/-! ### C3 — the failure modes of `parse` -/

/-- C3: `parse` fails in exactly two ways.  It reports the missing-prefix
error iff the input does not start with `now`; given the prefix, it reports
the invalid-sign error — carrying a matched token verbatim — iff some matched
token's first character is not `+`, `-` or `/`, it succeeds iff no such token
exists, and the internal invalid-rounding-unit error is unreachable.  In
particular `now-4d/3h` fails with the invalid-sign error for token `3h`, and
`invalid-date-string` fails with the missing-prefix error. -/
theorem claim_C3 (s : List Char) (now : Int) :
    (parse s now = .error .missingNow ↔ ¬ s.take 3 = nowChars) ∧
    (s.take 3 = nowChars →
      (((∃ tok, parse s now = .error (.invalidSign tok) ∧
            tok ∈ tokenize (s.drop 3) ∧ tokBadHead tok = true) ↔
          ∃ tok ∈ tokenize (s.drop 3), tokBadHead tok = true) ∧
        ((∃ v, parse s now = .ok v) ↔
          ∀ tok ∈ tokenize (s.drop 3), tokBadHead tok = false) ∧
        ∀ u, parse s now ≠ .error (.invalidUnit u))) ∧
    parse "now-4d/3h".toList now = .error (.invalidSign ['3', 'h']) ∧
    parse "invalid-date-string".toList now = .error .missingNow := by
  refine ⟨?_, ?_, ?_, ?_⟩
  · by_cases hp : s.take 3 = nowChars
    · constructor
      · intro h
        rw [parse, if_pos hp] at h
        exact absurd h (runOps_no_missing _ now)
      · intro h
        exact absurd hp h
    · constructor
      · intro _
        exact hp
      · intro _
        rw [parse, if_neg hp]
  · intro hp
    have hsh := tokenize_shape (s.drop 3)
    have hpp : parse s now = runOps (tokenize (s.drop 3)) now := by
      rw [parse, if_pos hp]
    refine ⟨?_, ?_, ?_⟩
    · constructor
      · rintro ⟨tok, _, hmem, hb⟩
        exact ⟨tok, hmem, hb⟩
      · intro hbad
        obtain ⟨tok, h1, h2, h3⟩ := runOps_bad _ now hsh hbad
        exact ⟨tok, by rw [hpp]; exact h1, h2, h3⟩
    · constructor
      · rintro ⟨v, hv⟩ tok hmem
        by_contra hb
        rw [Bool.not_eq_false] at hb
        obtain ⟨tk, h1, _, _⟩ := runOps_bad _ now hsh ⟨tok, hmem, hb⟩
        rw [hpp, h1] at hv
        exact absurd hv (by simp)
      · intro hgood
        obtain ⟨v, hv⟩ := runOps_good _ now hsh hgood
        exact ⟨v, by rw [hpp]; exact hv⟩
    · intro u
      rw [hpp]
      exact runOps_no_invalidUnit _ now hsh u
  · have hpp : parse "now-4d/3h".toList now =
        runOps [['-', '4', 'd'], ['3', 'h']] now := by
      rw [parse, if_pos (by decide)]
      rw [show tokenize ("now-4d/3h".toList.drop 3) =
        [['-', '4', 'd'], ['3', 'h']] by decide]
    rw [hpp]
    have hstep : runOps [['-', '4', 'd'], ['3', 'h']] now =
        runOps [['3', 'h']]
          (applyAdjustment now '-' (↑(tokenValue ['-', '4', 'd'])) 'd') :=
      runOps_adjTok '-' ['4'] 'd' [['3', 'h']] now (Or.inr rfl)
    rw [hstep]
    exact runOps_step_bad ['3', 'h'] [] _ (by decide)
  · rw [parse, if_neg (by decide)]

/-- Witness for C3, instantiated at `s = "now-4d/3h"` with the inner
hypothesis (the prefix check) discharged concretely. -/
theorem claim_C3_witness :
    ("now-4d/3h".toList.take 3 = nowChars) ∧
    (∃ tok ∈ tokenize ("now-4d/3h".toList.drop 3), tokBadHead tok = true) ∧
    (∃ tok, parse "now-4d/3h".toList 0 = .error (.invalidSign tok) ∧
      tok ∈ tokenize ("now-4d/3h".toList.drop 3) ∧ tokBadHead tok = true) := by
  refine ⟨by decide, by decide, ?_⟩
  exact ((claim_C3 "now-4d/3h".toList 0).2.1 (by decide)).1.mpr (by decide)

/-! ### C8 — unmatched characters are skipped and do not affect the result -/

theorem digit_not_sign (c : Char) (h : c.isDigit = true) : isSignChar c = false := by
  have h1 : ¬ c = '+' := fun he => by subst he; exact absurd h (by decide)
  have h2 : ¬ c = '-' := fun he => by subst he; exact absurd h (by decide)
  simp [isSignChar, h1, h2]

theorem matchToken_digitTok (ds : List Char) (u : Char) (rest : List Char)
    (hne : ds ≠ []) (hdig : ∀ c ∈ ds, c.isDigit = true) (hu : isUnitChar u = true) :
    matchToken (ds ++ u :: rest) = some (ds ++ [u], rest) := by
  obtain ⟨d, ds', rfl⟩ := List.exists_cons_of_ne_nil hne
  have hd : d.isDigit = true := hdig d (by simp)
  have htd : takeDigits ((d :: ds') ++ u :: rest) = (d :: ds', u :: rest) :=
    takeDigits_exact (d :: ds') u rest hdig (unit_not_digit u hu)
  rw [List.cons_append] at htd ⊢
  simp [matchToken, digit_not_sign d hd, hd, htd, hu]

theorem tokenize_digitTok (ds : List Char) (u : Char) (rest : List Char)
    (hne : ds ≠ []) (hdig : ∀ c ∈ ds, c.isDigit = true) (hu : isUnitChar u = true) :
    tokenize ((ds ++ [u]) ++ rest) = (ds ++ [u]) :: tokenize rest := by
  obtain ⟨d, ds', rfl⟩ := List.exists_cons_of_ne_nil hne
  have he : ((d :: ds') ++ [u]) ++ rest = d :: (ds' ++ u :: rest) := by simp
  rw [he]
  have hm := matchToken_digitTok (d :: ds') u rest hne hdig hu
  rw [List.cons_append] at hm
  exact tokenize_match d (ds' ++ u :: rest) _ rest hm

/-- Retokenizing the concatenation of matched tokens recovers exactly those
tokens. -/
theorem tokenize_flatten (toks : List (List Char))
    (hsh : ∀ tok ∈ toks, TokShape tok) :
    tokenize (List.foldr (· ++ ·) [] toks) = toks := by
  induction toks with
  | nil => rfl
  | cons tok rest ih =>
    have hsh' : ∀ tk ∈ rest, TokShape tk := fun tk hk => hsh tk (by simp [hk])
    have hstep := ih hsh'
    cases hsh tok (by simp) with
    | sign s ds u hs hne hdig hu =>
      simp only [List.foldr]
      rw [tokenize_signTok s ds u _ hs hne hdig hu, hstep]
    | digits ds u hne hdig hu =>
      simp only [List.foldr]
      rw [tokenize_digitTok ds u _ hne hdig hu, hstep]
    | slash u hu =>
      simp only [List.foldr]
      rw [tokenize_slashTok u _ hu, hstep]

/-- C8: characters of the remainder that belong to no token match never make
`parse` fail and never affect its result — parsing an expression equals
parsing `now` followed by just the concatenation of its matched tokens; and
when nothing matches at all, `parse` returns the reference instant
unchanged. -/
theorem claim_C8 (r : List Char) (now : Int) :
    parse (nowChars ++ r) now =
      parse (nowChars ++ List.foldr (· ++ ·) [] (tokenize r)) now ∧
    (tokenize r = [] → parse (nowChars ++ r) now = .ok now) := by
  constructor
  · rw [parse_now, parse_now, tokenize_flatten (tokenize r) (tokenize_shape r)]
  · intro h
    rw [parse_now, h]
    rfl

/-- Witness for C8 at a remainder (`"4x"`) that contains no token match. -/
theorem claim_C8_witness :
    parse (nowChars ++ "4x".toList) 12345 =
      parse (nowChars ++ List.foldr (· ++ ·) [] (tokenize "4x".toList)) 12345 ∧
    tokenize "4x".toList = [] ∧
    parse (nowChars ++ "4x".toList) 12345 = .ok 12345 :=
  ⟨(claim_C8 "4x".toList 12345).1, by decide,
    (claim_C8 "4x".toList 12345).2 (by decide)⟩

/-! ### C9 / C10 — the fallback breakdown of `stringify` -/

/-- The greedy fixed-duration breakdown as the spec words it: decompose the
absolute difference across `year(365d), month(30d), week(7d), day, hour,
minute, second` in order, taking the floor at each unit, and emit
`{sign}{value}{label}` exactly for the positive values. -/
def greedySpec (sign : Char) (diff : Int) : List Char :=
  let y := diff / msInYear
  let r1 := diff % msInYear
  let mo := r1 / msInMonth
  let r2 := r1 % msInMonth
  let w := r2 / msInWeek
  let r3 := r2 % msInWeek
  let d := r3 / msInDay
  let r4 := r3 % msInDay
  let h := r4 / msInHour
  let r5 := r4 % msInHour
  let mi := r5 / msInMinute
  let r6 := r5 % msInMinute
  let s := r6 / msInSecond
  (if y > 0 then sign :: (natRepr y.toNat ++ ['y']) else []) ++
  ((if mo > 0 then sign :: (natRepr mo.toNat ++ ['M']) else []) ++
  ((if w > 0 then sign :: (natRepr w.toNat ++ ['w']) else []) ++
  ((if d > 0 then sign :: (natRepr d.toNat ++ ['d']) else []) ++
  ((if h > 0 then sign :: (natRepr h.toNat ++ ['h']) else []) ++
  ((if mi > 0 then sign :: (natRepr mi.toNat ++ ['m']) else []) ++
  (if s > 0 then sign :: (natRepr s.toNat ++ ['s']) else []))))))

theorem fallbackLoop_acc (sign : Char) : ∀ (us : List (Char × Int)) (rem : Int)
    (acc : List Char),
    fallbackLoop sign us rem acc = acc ++ fallbackLoop sign us rem [] := by
  intro us
  induction us with
  | nil => intro rem acc; simp [fallbackLoop]
  | cons p us ih =>
    intro rem acc
    obtain ⟨l, dur⟩ := p
    simp only [fallbackLoop]
    rw [ih (rem % dur) (if rem / dur > 0 then acc ++ (sign :: (natRepr (rem / dur).toNat ++ [l])) else acc),
      ih (rem % dur) (if rem / dur > 0 then [] ++ (sign :: (natRepr (rem / dur).toNat ++ [l])) else [])]
    split <;> simp

theorem fallbackLoop_cons (sign l : Char) (dur : Int) (us : List (Char × Int))
    (rem : Int) :
    fallbackLoop sign ((l, dur) :: us) rem [] =
      (if rem / dur > 0 then sign :: (natRepr (rem / dur).toNat ++ [l]) else []) ++
        fallbackLoop sign us (rem % dur) [] := by
  simp only [fallbackLoop]
  rw [fallbackLoop_acc]
  split <;> simp

/-- The source's fold equals the spec's unrolled greedy breakdown. -/
theorem fallback_eq_greedy (sign : Char) (diff : Int) :
    fallbackLoop sign fallbackUnits diff nowChars = nowChars ++ greedySpec sign diff := by
  rw [fallbackLoop_acc]
  refine congrArg (fun x => nowChars ++ x) ?_
  simp only [fallbackUnits]
  rw [fallbackLoop_cons, fallbackLoop_cons, fallbackLoop_cons, fallbackLoop_cons,
    fallbackLoop_cons, fallbackLoop_cons, fallbackLoop_cons]
  simp only [greedySpec, fallbackLoop, List.append_nil]

/-- `stringify` on an instant matching none of the six alignment checks. -/
theorem stringify_fallback (date now : Int)
    (h1 : ¬ yearAligned date) (h2 : ¬ monthAligned date) (h3 : ¬ weekAligned date)
    (h4 : ¬ dayAligned date) (h5 : ¬ hourAligned date) (h6 : ¬ minuteAligned date) :
    stringify date now =
      nowChars ++ greedySpec (if 0 ≤ date - now then '+' else '-')
        (if 0 ≤ date - now then date - now else -(date - now)) := by
  simp only [stringify]
  rw [if_neg h1, if_neg h2, if_neg h3, if_neg h4, if_neg h5, if_neg h6]
  exact fallback_eq_greedy _ _

/-- C9: when the target matches none of the six alignment checks, `stringify`
output is `now` followed by the greedy fixed-duration breakdown of the
absolute difference, with one uniform sign taken from the raw signed
difference and zero-valued units omitted; if every unit value is zero the
result is the literal `now`.  In particular, with reference
`2020-06-12T13:20:17.486Z`, `stringify(2020-06-08T08:13:17.486Z)` is
`now-4d-5h-7m`. -/
theorem claim_C9 (date now : Int)
    (h1 : ¬ yearAligned date) (h2 : ¬ monthAligned date) (h3 : ¬ weekAligned date)
    (h4 : ¬ dayAligned date) (h5 : ¬ hourAligned date) (h6 : ¬ minuteAligned date) :
    stringify date now =
      nowChars ++ greedySpec (if 0 ≤ date - now then '+' else '-')
        (if 0 ≤ date - now then date - now else -(date - now)) ∧
    (greedySpec (if 0 ≤ date - now then '+' else '-')
        (if 0 ≤ date - now then date - now else -(date - now)) = [] →
      stringify date now = nowChars) ∧
    stringify (utc 2020 6 8 8 13 17 486) (utc 2020 6 12 13 20 17 486) =
      "now-4d-5h-7m".toList := by
  have hfb := stringify_fallback date now h1 h2 h3 h4 h5 h6
  refine ⟨hfb, ?_, by decide⟩
  intro hz
  rw [hfb, hz]
  rfl

/-- Witness for C9 at the spec's own concrete instance. -/
theorem claim_C9_witness :
    (¬ yearAligned (utc 2020 6 8 8 13 17 486)) ∧
    (¬ minuteAligned (utc 2020 6 8 8 13 17 486)) ∧
    stringify (utc 2020 6 8 8 13 17 486) (utc 2020 6 12 13 20 17 486) =
      nowChars ++ greedySpec '-' 364020000 ∧
    stringify (utc 2020 6 8 8 13 17 486) (utc 2020 6 12 13 20 17 486) =
      "now-4d-5h-7m".toList := by
  refine ⟨by decide, by decide, ?_, ?_⟩
  · have h := (claim_C9 (utc 2020 6 8 8 13 17 486) (utc 2020 6 12 13 20 17 486)
      (by decide) (by decide) (by decide) (by decide) (by decide) (by decide)).1
    rw [h]
    decide
  · exact (claim_C9 (utc 2020 6 8 8 13 17 486) (utc 2020 6 12 13 20 17 486)
      (by decide) (by decide) (by decide) (by decide) (by decide) (by decide)).2.2

/-- The seven greedy whole-unit counts of an absolute difference. -/
def sevenCounts (diff : Int) : List Int :=
  [diff / msInYear,
   diff % msInYear / msInMonth,
   diff % msInYear % msInMonth / msInWeek,
   diff % msInYear % msInMonth % msInWeek / msInDay,
   diff % msInYear % msInMonth % msInWeek % msInDay / msInHour,
   diff % msInYear % msInMonth % msInWeek % msInDay % msInHour / msInMinute,
   diff % msInYear % msInMonth % msInWeek % msInDay % msInHour % msInMinute /
     msInSecond]

/-- The greedy breakdown depends only on the seven counts. -/
theorem greedySpec_eq_of_counts (sign : Char) (a b : Int)
    (h : sevenCounts a = sevenCounts b) : greedySpec sign a = greedySpec sign b := by
  simp only [sevenCounts, List.cons.injEq, and_true] at h
  obtain ⟨e1, e2, e3, e4, e5, e6, e7⟩ := h
  simp only [greedySpec]
  rw [e1, e2, e3, e4, e5, e6, e7]

/-- A sub-second absolute difference produces an empty breakdown. -/
theorem greedySpec_small (sign : Char) (d : Int) (h0 : 0 ≤ d) (h1 : d < 1000) :
    greedySpec sign d = [] := by
  simp only [greedySpec, msInYear, msInMonth, msInWeek, msInDay, msInHour,
    msInMinute, msInSecond]
  rw [if_neg (by omega), if_neg (by omega), if_neg (by omega), if_neg (by omega),
    if_neg (by omega), if_neg (by omega), if_neg (by omega)]
  simp

/-- C10: the fallback branch never emits a sub-second component: two targets
that both miss all six alignment checks, whose absolute differences from the
reference agree on every whole-unit count, and that lie within 1000 ms of
each other, stringify identically; and a target reaching the fallback within
1000 ms of the reference stringifies to the literal `now`. -/
theorem claim_C10 (now t1 t2 : Int)
    (ha1 : ¬ yearAligned t1) (ha2 : ¬ monthAligned t1) (ha3 : ¬ weekAligned t1)
    (ha4 : ¬ dayAligned t1) (ha5 : ¬ hourAligned t1) (ha6 : ¬ minuteAligned t1)
    (hb1 : ¬ yearAligned t2) (hb2 : ¬ monthAligned t2) (hb3 : ¬ weekAligned t2)
    (hb4 : ¬ dayAligned t2) (hb5 : ¬ hourAligned t2) (hb6 : ¬ minuteAligned t2)
    (hc : sevenCounts (if 0 ≤ t1 - now then t1 - now else -(t1 - now)) =
      sevenCounts (if 0 ≤ t2 - now then t2 - now else -(t2 - now)))
    (hd1 : t1 - t2 < 1000) (hd2 : t2 - t1 < 1000) :
    stringify t1 now = stringify t2 now ∧
    (t1 - now < 1000 → now - t1 < 1000 → stringify t1 now = nowChars) := by
  have hf1 := stringify_fallback t1 now ha1 ha2 ha3 ha4 ha5 ha6
  have hf2 := stringify_fallback t2 now hb1 hb2 hb3 hb4 hb5 hb6
  constructor
  · by_cases hs1 : 0 ≤ t1 - now
    · by_cases hs2 : 0 ≤ t2 - now
      · rw [hf1, hf2]
        simp only [if_pos hs1, if_pos hs2] at hc ⊢
        rw [greedySpec_eq_of_counts '+' _ _ hc]
      · -- signs differ: both differences are below one second in magnitude
        rw [hf1, hf2]
        simp only [if_pos hs1, if_neg hs2]
        rw [greedySpec_small '+' _ (by omega) (by omega),
          greedySpec_small '-' _ (by omega) (by omega)]
    · by_cases hs2 : 0 ≤ t2 - now
      · rw [hf1, hf2]
        simp only [if_neg hs1, if_pos hs2]
        rw [greedySpec_small '-' _ (by omega) (by omega),
          greedySpec_small '+' _ (by omega) (by omega)]
      · rw [hf1, hf2]
        simp only [if_neg hs1, if_neg hs2] at hc ⊢
        rw [greedySpec_eq_of_counts '-' _ _ hc]
  · intro hsm1 hsm2
    rw [hf1]
    by_cases hs1 : 0 ≤ t1 - now
    · simp only [if_pos hs1]
      rw [greedySpec_small '+' _ (by omega) (by omega)]
      rfl
    · simp only [if_neg hs1]
      rw [greedySpec_small '-' _ (by omega) (by omega)]
      rfl

/-- Witness for C10: two fallback targets 400 ms apart with the same counts,
and a target within a second of the reference. -/
theorem claim_C10_witness :
    stringify (utc 2020 6 12 13 20 17 886) (utc 2020 6 12 13 20 17 486) =
      stringify (utc 2020 6 12 13 20 18 286) (utc 2020 6 12 13 20 17 486) ∧
    stringify (utc 2020 6 12 13 20 17 886) (utc 2020 6 12 13 20 17 486) =
      nowChars := by
  have h := claim_C10 (utc 2020 6 12 13 20 17 486) (utc 2020 6 12 13 20 17 886)
    (utc 2020 6 12 13 20 18 286)
    (by decide) (by decide) (by decide) (by decide) (by decide) (by decide)
    (by decide) (by decide) (by decide) (by decide) (by decide) (by decide)
    (by decide) (by decide) (by decide)
  exact ⟨h.1, h.2 (by decide) (by decide)⟩

/-! ### Round-trip analysis (C1) -/

theorem tokenize_nil : tokenize ([] : List Char) = [] := rfl

/-- An instant that passes the midnight checks sits exactly at the start of
its day. -/
theorem dayAligned_decomp (t : Int) (h : dayAligned t) :
    t = dayNumber t * msInDay := by
  obtain ⟨h1, h2, h3, h4⟩ := h
  simp only [getUTCHours, getUTCMinutes, getUTCSeconds, getUTCMilliseconds,
    msInHour, msInMinute, msInSecond] at h1 h2 h3 h4
  unfold dayNumber msInDay
  omega

/-- A year-aligned instant is the epoch value of January 1 of its year. -/
theorem yearAligned_decomp (t : Int) (h : yearAligned t) :
    t = daysFromCivil (getUTCFullYear t) 1 1 * msInDay := by
  obtain ⟨hm, hd, h1, h2, h3, h4⟩ := h
  have hdfc := daysFromCivil_cfd (dayNumber t)
  have hm' : cfdMonth (dayNumber t) = 1 := by
    unfold getUTCMonth at hm
    omega
  unfold getUTCDate at hd
  rw [hm', hd] at hdfc
  unfold getUTCFullYear
  rw [hdfc]
  exact dayAligned_decomp t ⟨h1, h2, h3, h4⟩

theorem cfdYear_mono {z1 z2 : Int} (h : z1 ≤ z2) : cfdYear z1 ≤ cfdYear z2 := by
  by_contra hc
  push_neg at hc
  have h1 := year_range z1
  have h2 := year_range z2
  have h3 := janFirst_mono (show cfdYear z2 + 1 ≤ cfdYear z1 from by omega)
  omega

theorem getUTCFullYear_mono {t1 t2 : Int} (h : t1 ≤ t2) :
    getUTCFullYear t1 ≤ getUTCFullYear t2 := by
  unfold getUTCFullYear
  refine cfdYear_mono ?_
  unfold dayNumber msInDay
  omega

theorem tokenize_slash_only (u : Char) (hu : isUnitChar u = true) :
    tokenize ['/', u] = [['/', u]] := by
  have h := tokenize_slashTok u [] hu
  simp only [List.append_nil] at h
  rw [h, tokenize_nil]

theorem tokenize_sign_slash (s : Char) (ds : List Char) (u u2 : Char)
    (hs : isSignChar s = true) (hds : ds ≠ [])
    (hdig : ∀ c ∈ ds, c.isDigit = true) (hu : isUnitChar u = true)
    (hu2 : isUnitChar u2 = true) :
    tokenize ((s :: (ds ++ [u])) ++ ['/', u2]) =
      [s :: (ds ++ [u]), ['/', u2]] := by
  rw [tokenize_signTok s ds u ['/', u2] hs hds hdig hu, tokenize_slash_only u2 hu2]

/-- Parsing `now/{u}` applies the single rounding. -/
theorem parse_round_only (u : Char) (now tr : Int) (hu : isUnitChar u = true)
    (hround : applyRounding now u = some tr) :
    parse (nowChars ++ ['/', u]) now = .ok tr := by
  rw [parse_now, tokenize_slash_only u hu, runOps_slashTok u [] now tr hround]
  rfl

/-- Parsing `now{s}{ds}{u}/{u2}` applies one adjustment then one rounding. -/
theorem parse_adj_round (s : Char) (ds : List Char) (u u2 : Char) (now tr : Int)
    (hs : isSignChar s = true) (hds : ds ≠ [])
    (hdig : ∀ c ∈ ds, c.isDigit = true) (hu : isUnitChar u = true)
    (hu2 : isUnitChar u2 = true)
    (hround : applyRounding
      (applyAdjustment now s (tokenValue (s :: (ds ++ [u]))) u) u2 = some tr) :
    parse (nowChars ++ ((s :: (ds ++ [u])) ++ ['/', u2])) now = .ok tr := by
  rw [parse_now, tokenize_sign_slash s ds u u2 hs hds hdig hu hu2,
    runOps_adjTok s ds u [['/', u2]] now (signChar_cases s hs),
    runOps_slashTok u2 [] _ tr hround]
  rfl

/-- The magnitude carried by a rendered nonzero numeral. -/
theorem tokenValue_natRepr (s u : Char) (n : Nat) (hn : n ≠ 0) :
    tokenValue (s :: (natRepr n ++ [u])) = n := by
  rw [tokenValue_signTok]
  rcases natRepr_val n with h | h
  · rw [h, if_neg hn]
  · exact absurd h hn

/-- A month-aligned instant breaking the round-trip: at the test reference,
`2020-07-01T00:00Z` stringifies to `now+1M`, which parses to a different
instant (the adjustment keeps the reference's day and time of day). -/
theorem claim_C1_cex :
    monthAligned (utc 2020 7 1 0 0 0 0) ∧
    stringify (utc 2020 7 1 0 0 0 0) (utc 2020 6 12 13 20 17 486) =
      "now+1M".toList ∧
    parse (stringify (utc 2020 7 1 0 0 0 0) (utc 2020 6 12 13 20 17 486))
        (utc 2020 6 12 13 20 17 486) ≠
      Except.ok (utc 2020 7 1 0 0 0 0) := by decide

/-- C1 (amended): the round-trip `parse (stringify t) = t` holds for every
year-aligned instant with any shared reference, and for every week-aligned
instant whose day of month is not 1 and whose calendar day is not before the
reference's. -/
theorem claim_C1 (t now : Int) :
    (yearAligned t → parse (stringify t now) now = .ok t) ∧
    (weekAligned t → getUTCDate t ≠ 1 → dayNumber now ≤ dayNumber t →
      parse (stringify t now) now = .ok t) := by
  constructor
  · intro hy
    have hts : t = daysFromCivil (getUTCFullYear t) 1 1 * msInDay :=
      yearAligned_decomp t hy
    simp only [stringify]
    rw [if_pos hy]
    by_cases hz : getUTCFullYear t - getUTCFullYear now = 0
    · rw [if_neg (by omega)]
      refine parse_round_only 'y' now t (by decide) ?_
      rw [roundY]
      refine congrArg some ?_
      rw [show getUTCFullYear now = getUTCFullYear t from by omega]
      exact hts.symm
    · rw [if_pos hz]
      have hN : (getUTCFullYear t - getUTCFullYear now).natAbs ≠ 0 := by omega
      by_cases h0 : 0 ≤ t - now
      · rw [if_pos h0]
        have hmono : getUTCFullYear now ≤ getUTCFullYear t :=
          getUTCFullYear_mono (by omega)
        rw [show ('+' :: (natRepr (getUTCFullYear t - getUTCFullYear now).natAbs ++
            ['y', '/', 'y'])) =
          (('+' :: (natRepr (getUTCFullYear t - getUTCFullYear now).natAbs ++
            ['y'])) ++ ['/', 'y']) from by simp]
        refine parse_adj_round '+'
          (natRepr (getUTCFullYear t - getUTCFullYear now).natAbs) 'y' 'y' now t
          (by decide) (natRepr_ne_nil _) (natRepr_digits _) (by decide)
          (by decide) ?_
        rw [tokenValue_natRepr '+' 'y' _ hN, applyAdjustment_y, if_pos rfl]
        rw [show getUTCFullYear now +
            (((getUTCFullYear t - getUTCFullYear now).natAbs : Int)) * 1 =
            getUTCFullYear t from by omega]
        rw [roundY, getUTCFullYear_setUTCFullYear]
        rw [← hts]
      · rw [if_neg h0]
        have hmono : getUTCFullYear t ≤ getUTCFullYear now :=
          getUTCFullYear_mono (by omega)
        rw [show ('-' :: (natRepr (getUTCFullYear t - getUTCFullYear now).natAbs ++
            ['y', '/', 'y'])) =
          (('-' :: (natRepr (getUTCFullYear t - getUTCFullYear now).natAbs ++
            ['y'])) ++ ['/', 'y']) from by simp]
        refine parse_adj_round '-'
          (natRepr (getUTCFullYear t - getUTCFullYear now).natAbs) 'y' 'y' now t
          (by decide) (natRepr_ne_nil _) (natRepr_digits _) (by decide)
          (by decide) ?_
        rw [tokenValue_natRepr '-' 'y' _ hN, applyAdjustment_y,
          if_neg (by decide)]
        rw [show getUTCFullYear now +
            (((getUTCFullYear t - getUTCFullYear now).natAbs : Int)) * (-1) =
            getUTCFullYear t from by omega]
        rw [roundY, getUTCFullYear_setUTCFullYear]
        rw [← hts]
  · intro hw hd1 hmono
    have hwt : t = dayNumber t * msInDay :=
      dayAligned_decomp t ⟨hw.2.1, hw.2.2.1, hw.2.2.2.1, hw.2.2.2.2⟩
    have hnotY : ¬ yearAligned t := fun h => hd1 h.2.1
    have hnotM : ¬ monthAligned t := fun h => hd1 h.1
    simp only [stringify]
    rw [if_neg hnotY, if_neg hnotM, if_pos hw]
    have htd : (t - convertToDateOnly now) / msInDay =
        dayNumber t - dayNumber now := by
      rw [convertToDateOnly_eq]
      unfold msInDay
      unfold msInDay at hwt
      omega
    rw [htd]
    by_cases hN : dayNumber t - dayNumber now = 0
    · have hc : ¬ ((dayNumber t - dayNumber now) / 7 ≠ 0 ∨
          jsTruncMod (dayNumber t - dayNumber now) 7 ≠ 0) := by
        rw [hN]
        decide
      rw [if_neg hc]
      refine parse_round_only 'w' now t (by decide) ?_
      rw [roundW]
      have hday : getUTCDay now = 0 := by
        have h1 := hw.1
        unfold getUTCDay at h1 ⊢
        omega
      rw [hday]
      refine congrArg some ?_
      unfold msInDay at hwt ⊢
      omega
    · have hNpos : 0 < dayNumber t - dayNumber now := by omega
      have hc : (dayNumber t - dayNumber now) / 7 ≠ 0 ∨
          jsTruncMod (dayNumber t - dayNumber now) 7 ≠ 0 := by
        unfold jsTruncMod
        rw [if_pos (by omega)]
        omega
      rw [if_pos hc]
      have hsign : 0 ≤ t - now := by
        have hdec := dayNumber_decomp now
        unfold msInDay at hdec hwt
        omega
      rw [if_pos hsign]
      have hval : (dayNumber t - dayNumber now) / 7 * 7 +
          jsTruncMod (dayNumber t - dayNumber now) 7 =
          dayNumber t - dayNumber now := by
        unfold jsTruncMod
        rw [if_pos (by omega)]
        omega
      rw [hval]
      have hir : intRepr (dayNumber t - dayNumber now) =
          natRepr (dayNumber t - dayNumber now).toNat := by
        unfold intRepr
        rw [if_neg (by omega)]
      rw [hir]
      rw [show ('+' :: (natRepr (dayNumber t - dayNumber now).toNat ++
          ['d', '/', 'w'])) =
        (('+' :: (natRepr (dayNumber t - dayNumber now).toNat ++ ['d'])) ++
          ['/', 'w']) from by simp]
      refine parse_adj_round '+' (natRepr (dayNumber t - dayNumber now).toNat)
        'd' 'w' now t (by decide) (natRepr_ne_nil _) (natRepr_digits _)
        (by decide) (by decide) ?_
      rw [tokenValue_natRepr '+' 'd' _ (by omega), applyAdjustment_d,
        if_pos rfl, mul_one]
      rw [show (((dayNumber t - dayNumber now).toNat : Int)) =
        dayNumber t - dayNumber now from by omega]
      rw [roundW]
      have hdn : dayNumber (now + (dayNumber t - dayNumber now) * msInDay) =
          dayNumber t := by
        unfold dayNumber msInDay
        omega
      have hgd : getUTCDay (now + (dayNumber t - dayNumber now) * msInDay) = 0 := by
        have h1 := hw.1
        unfold getUTCDay at h1 ⊢
        rw [hdn]
        exact h1
      rw [hdn, hgd]
      refine congrArg some ?_
      unfold msInDay at hwt ⊢
      omega

/-- Witness for C1: the year part at `2019-01-01` and the week part at the
Sunday `2020-06-21`, both against the test reference. -/
theorem claim_C1_witness :
    (yearAligned (utc 2019 1 1 0 0 0 0) ∧
      parse (stringify (utc 2019 1 1 0 0 0 0) (utc 2020 6 12 13 20 17 486))
        (utc 2020 6 12 13 20 17 486) = .ok (utc 2019 1 1 0 0 0 0)) ∧
    (weekAligned (utc 2020 6 21 0 0 0 0) ∧
      getUTCDate (utc 2020 6 21 0 0 0 0) ≠ 1 ∧
      dayNumber (utc 2020 6 12 13 20 17 486) ≤ dayNumber (utc 2020 6 21 0 0 0 0) ∧
      parse (stringify (utc 2020 6 21 0 0 0 0) (utc 2020 6 12 13 20 17 486))
        (utc 2020 6 12 13 20 17 486) = .ok (utc 2020 6 21 0 0 0 0)) :=
  ⟨⟨by decide, (claim_C1 _ _).1 (by decide)⟩,
   ⟨by decide, by decide, by decide,
     (claim_C1 _ _).2 (by decide) (by decide) (by decide)⟩⟩


end Petsapp
